import Mathlib

/-!
# The mock connection of internal/conn/mock.go

A shallow embedding of the mock connection: its command registry, its
write path, its shutdown signalling and its read loop.

Go maps are reference values.  A value of type MessageStruct is either nil or
a reference to a map object living on the heap, and AddCommand stores the
reference it is given, so the caller and the registry (or two groups) can share
one map object.  The embedding keeps this: the heap maps an address to the
contents of the map object at that address, and a MessageStruct is an optional
address.

The mutex is not modelled: every method runs from its Lock to its Unlock
without interleaving.  What a method does to the outside (log calls, handler
calls, channel sends, transport calls) is appended to a list of events.

The shutdown channels are unbuffered: a send completes only when another
goroutine receives.  The world records, for every channel, how many receives
the other goroutines will still perform on it; a send on a channel with none
left blocks for ever, and the call that makes it never returns.

The read loop is modelled one round at a time: what pipe.Read returned is an
input of the round, and the JSON encoder and decoder of the standard library
are parameters.
-/

namespace conn

/-- A byte slice, as the list of its bytes. -/
abbrev Bytes := List Nat

/-- Modelled from the spec: logger.Logger, the logging capability, is declared
in another package.  The connection stores it, hands it to handlers and calls
Debug and Warn on it; a logger is represented by a number that identifies it. -/
abbrev Logger := Nat

/-- Modelled from the spec: logger.NullLogger(), the discard logger. -/
def NullLogger : Logger := 0

/-- Modelled from the spec: client.Client, the client metadata record, is
declared in another package; it is stored and returned, never inspected. -/
abbrev Client := Nat

/-- Modelled from the spec: a command handler, a function from the logger and
the raw payload to an error (none is the nil error, some msg an error with that
message).  Entries of a command set are callable functions. -/
abbrev Handler := Logger → Bytes → Option String

/-- The contents of one map object of type map[string]Handler: a finite map
with unique keys. -/
abbrev MapObject := AList (fun _ : String => Handler)

/-- The Go heap, restricted to map objects: address to contents. -/
abbrev Heap := Nat → MapObject

/-- Modelled from the spec: MessageStruct, the command set type
map[string]Handler, declared in another file of the package.  A value of a Go
map type is nil (none) or a reference to a map object (some address). -/
abbrev MessageStruct := Option Nat

/-- Modelled from the spec: MessageRecv, the decoded inbound envelope, declared
in another file of the package. -/
structure MessageRecv where
  Group : String
  Name : String
  Body : Bytes
deriving DecidableEq, Repr

/-- Modelled from the spec: MessageSend, the outbound envelope, declared in
another file of the package.  The body is an arbitrary payload; it is kept as a
number that identifies the payload and is only ever handed to the encoder. -/
structure MessageSend where
  Group : String
  Name : String
  Body : Nat
deriving DecidableEq, Repr

/-- What a method does to the outside world, in program order. -/
inductive Event where
  -- The call log.Debug(...) with the rendered message.
  | Debug (log : Logger) (msg : String)
  -- The call log.Warn(...) with the rendered message.
  | Warn (log : Logger) (msg : String)
  -- The call fmt.Printf(...) with the rendered text.
  | Printf (msg : String)
  -- A handler called on the current goroutine.
  | call (callback : Handler) (log : Logger) (body : Bytes)
  -- A goroutine started that calls the handler.
  | go (callback : Handler) (log : Logger) (body : Bytes)
  -- The send v <- true on a shutdown channel.
  | send (ch : Nat)
  -- The call pipe.Close().
  | Close (pipe : Nat)
  -- The call pipe.SetWriteDeadline(now + ms milliseconds).
  | SetWriteDeadline (pipe : Nat) (ms : Nat)
  -- The call pipe.Write(body), with the count and error it returned.
  | Write (pipe : Nat) (body : Bytes) (n : Nat) (err : Option String)

/-- The struct mock, without its mutex.  The field cmd has type
map[string]MessageStruct: its values are references to map objects.  A channel
and a transport end are represented by a number that identifies them. -/
structure mock where
  log : Logger
  cmd : AList (fun _ : String => MessageStruct)
  done : List Nat
  pipe : Nat
  cl : Client

/-- The state a method of the connection runs in: the map objects on the heap,
the number of channels made so far, the connection itself, the events emitted
so far (oldest first) and, for every channel, the number of receives that the
other goroutines will still perform on it. -/
structure World where
  heap : Heap
  chans : Nat
  m : mock
  events : List Event
  recv : Nat → Nat

/-- How a call ends: it returns a value, or it blocks for ever at a channel
send that nobody receives.  A blocked call holds the mutex for good, so no
world follows it; what is kept is the list of events emitted up to the send it
is stuck at. -/
inductive Result (α : Type) where
  | returned (a : α)
  | blocked (events : List Event)

/-- The map read mp[k] with the comma-ok form: reading a nil map finds nothing. -/
def mapaccess (heap : Heap) (mp : MessageStruct) (k : String) : Option Handler :=
  match mp with
  | none => none
  | some a => (heap a).lookup k

/-- The map write mp[k] = v: it panics on a nil map, and otherwise changes the
map object in place. -/
def mapassign (heap : Heap) (mp : MessageStruct) (k : String) (v : Handler) :
    Except String Heap :=
  match mp with
  | none => Except.error "assignment to entry in nil map"
  | some a => Except.ok (Function.update heap a ((heap a).insert k v))

/-- The builtin delete(mp, k): a no-op on a nil map, and otherwise changes the
map object in place. -/
def mapdelete (heap : Heap) (mp : MessageStruct) (k : String) : Heap :=
  match mp with
  | none => heap
  | some a => Function.update heap a ((heap a).erase k)

/-- The entries a range loop over mp visits: none for a nil map. -/
def mapentries (heap : Heap) (mp : MessageStruct) : List (Sigma fun _ : String => Handler) :=
  match mp with
  | none => []
  | some a => (heap a).entries

/-- The constructor NewMockConn, up to the start of the read loop: the logger
is the discard logger, the registry is an empty map and there is no shutdown
channel. -/
def NewMockConn (cn : Nat) (cl : Client) : mock :=
  { log := NullLogger, cmd := ∅, done := [], pipe := cn, cl := cl }

/-- The method SetLogger. -/
def SetLogger (w : World) (log : Logger) : World :=
  { w with m := { w.m with log := log } }

/-- The method GetClient. -/
def GetClient (w : World) : Client :=
  w.m.cl

/-- The pair constructor NewMockConnHelper, given the two ends of net.Pipe():
the server side carries the zero client, the client side carries cl, and both
log to the discard logger. -/
def NewMockConnHelper (spipe cpipe : Nat) (cl : Client) : mock × mock :=
  let sconn := NewMockConn spipe 0
  let cconn := NewMockConn cpipe cl
  ({ sconn with log := NullLogger }, { cconn with log := NullLogger })

/-- The method AddCommand.  When the group exists every entry of msgstrct is
assigned into the map object already registered (a panic when that map is nil
and msgstrct has an entry) and the same reference is stored again; otherwise the
reference msgstrct itself is stored under the group. -/
def AddCommand (w : World) (group : String) (msgstrct : MessageStruct) : Except String World :=
  match w.m.cmd.lookup group with
  | some cmd =>
    match (mapentries w.heap msgstrct).foldlM (fun hp kv => mapassign hp cmd kv.1 kv.2) w.heap with
    | Except.error p => Except.error p
    | Except.ok hp =>
      Except.ok { w with heap := hp, m := { w.m with cmd := w.m.cmd.insert group cmd } }
  | none => Except.ok { w with m := { w.m with cmd := w.m.cmd.insert group msgstrct } }

/-- The error ExecuteCommand returns when the group is known and the name is not. -/
def errName : String := "c.cmd[name].(bool) != true"

/-- The error ExecuteCommand returns when the group is not known. -/
def errGroup : String := "c.cmd[group].(bool) != true"

/-- The method ExecuteCommand: the returned error is none for nil. -/
def ExecuteCommand (w : World) (group name : String) (body : Bytes) : World × Option String :=
  match w.m.cmd.lookup group with
  | some g =>
    match mapaccess w.heap g name with
    | some cmd =>
      let val := cmd w.m.log body
      ({ w with events := w.events ++ [Event.call cmd w.m.log body] }, val)
    | none => (w, some errName)
  | none => (w, some errGroup)

/-- The method RemoveCommandsByGroup. -/
def RemoveCommandsByGroup (w : World) (group : String) : World :=
  { w with
    m := { w.m with cmd := w.m.cmd.erase group }
    events := w.events ++ [Event.Debug w.m.log ("conn.RemoveCommandsByGroup: " ++ group)] }

/-- One round of the loop of RemoveCommandsByNames: the group is looked up
again, the name is deleted from its map object and the removal is logged. -/
def removeName (group : String) (w : World) (v : String) : World :=
  { w with
    heap := mapdelete w.heap ((w.m.cmd.lookup group).getD none) v
    events := w.events ++ [Event.Debug w.m.log ("conn.RemoveCommandsByNames: " ++ group ++ "." ++ v)] }

/-- The method RemoveCommandsByNames. -/
def RemoveCommandsByNames (w : World) (group : String) (names : List String) : World :=
  match w.m.cmd.lookup group with
  | some _ => names.foldl (removeName group) w
  | none => w

/-- The method WriteBytes: the deadline is set 50 ms ahead and the body is
written; wr is what the transport write returns, which the method drops. -/
def WriteBytes (w : World) (body : Bytes) (wr : Nat × Option String) : World :=
  { w with
    events := w.events ++ [Event.SetWriteDeadline w.m.pipe 50, Event.Write w.m.pipe body wr.1 wr.2] }

/-- The method WriteMessage.  The encoder json.Marshal belongs to the standard
library and is a parameter; wr is what the transport write returns. -/
def WriteMessage (marshal : MessageSend → Except String Bytes) (w : World) (ms : MessageSend)
    (wr : Nat × Option String) : World × Option String :=
  match marshal ms with
  | Except.error err => (w, some ("json.Marshal: " ++ err))
  | Except.ok body =>
    let w1 := WriteBytes w body wr
    ({ w1 with events := w1.events ++ [Event.Debug w1.m.log ("c.SendMessage: " ++ ms.Group ++ "." ++ ms.Name)] },
      none)

/-- The method GetDone: a new channel is made and appended to the list. -/
def GetDone (w : World) : World × Nat :=
  let done := w.chans
  ({ w with chans := w.chans + 1, m := { w.m with done := w.m.done ++ [done] } }, done)

/-- The loop of Destroy over the registered channels: the send v <- true on
the unbuffered channel v completes when a receive is still to come on v, which
it uses up, and blocks for ever otherwise. -/
def sendAll : List Nat → World → Result World
  | [], w => Result.returned w
  | v :: vs, w =>
    if w.recv v = 0 then Result.blocked w.events
    else
      sendAll vs
        { w with
          recv := Function.update w.recv v (w.recv v - 1)
          events := w.events ++ [Event.send v] }

/-- The method Destroy: one send on every registered channel, in order, then
the transport is closed.  When a send blocks, the call never reaches the
Close. -/
def Destroy (w : World) : Result World :=
  match sendAll w.m.done w with
  | Result.blocked es => Result.blocked es
  | Result.returned w1 =>
    Result.returned { w1 with events := w1.events ++ [Event.Close w1.m.pipe] }

/-- The routing step of the read loop (the block guarded by
len(messagejson.Group) > 0), for a decoded message. -/
def dispatch (w : World) (messagejson : MessageRecv) : World :=
  if messagejson.Group.length > 0 then
    match w.m.cmd.lookup messagejson.Group with
    | some strct =>
      if messagejson.Name.length > 0 then
        match mapaccess w.heap strct messagejson.Name with
        | some callback =>
          { w with events := w.events ++ [Event.go callback w.m.log messagejson.Body] }
        | none => w
      else w
    | none =>
      { w with
        events := w.events ++
          [Event.Warn w.m.log ("!c.cmd.(bool): " ++ messagejson.Group ++ "." ++ messagejson.Name)] }
  else w

/-- The handler the registry resolves (group, name) to, if any. -/
def resolve (w : World) (group name : String) : Option Handler :=
  match w.m.cmd.lookup group with
  | some g => mapaccess w.heap g name
  | none => none

/-- How many sends on the channel ch a list of events holds. -/
def sentTo (ch : Nat) (es : List Event) : Nat :=
  es.countP fun e =>
    match e with
    | Event.send c => c == ch
    | _ => false

/-- How many times a list of events closes the transport. -/
def closes (es : List Event) : Nat :=
  es.countP fun e =>
    match e with
    | Event.Close _ => true
    | _ => false

/-- How many handler calls and goroutine launches a list of events holds. -/
def invocations (es : List Event) : Nat :=
  es.countP fun e =>
    match e with
    | Event.call _ _ _ => true
    | Event.go _ _ _ => true
    | _ => false

/-- The world after k successive calls of GetDone, with the channels the calls
returned, first call first. -/
def GetDoneTimes : Nat → World → World × List Nat
  | 0, w => (w, [])
  | k + 1, w => ((GetDoneTimes k (GetDone w).1).1, (GetDone w).2 :: (GetDoneTimes k (GetDone w).1).2)

/-- A handler that succeeds. -/
def handlerOk : Handler := fun _ _ => none

/-- A handler that fails with the message A. -/
def handlerA : Handler := fun _ _ => some "A"

/-- A handler that fails with the message B. -/
def handlerB : Handler := fun _ _ => some "B"

/-- A heap with three map objects: address 0 holds login and logout, address 1
holds login with another handler, address 2 holds a handler under the empty
name; every other address holds an empty map. -/
def heap3 : Heap := fun a =>
  if a = 0 then (AList.singleton "logout" handlerOk).insert "login" handlerA
  else if a = 1 then AList.singleton "login" handlerB
  else if a = 2 then AList.singleton "" handlerA
  else ∅

/-- A connection as NewMockConn returns it, next to the heap heap3; every
channel that will be made has one waiter, which receives once. -/
def fresh : World :=
  { heap := heap3, chans := 0, m := NewMockConn 0 0, events := [], recv := fun _ => 1 }

/-- The connection fresh after AddCommand of the map at address 0 under auth
and of the map at address 2 under misc. -/
def served : World :=
  { fresh with m := { fresh.m with cmd := (AList.singleton "auth" (some 0)).insert "misc" (some 2) } }

/-- The connection fresh after AddCommand of the one map at address 0 under
both auth and chat. -/
def shared : World :=
  { fresh with m := { fresh.m with cmd := (AList.singleton "auth" (some 0)).insert "chat" (some 0) } }

/-- The size of the receive buffer of the read loop. -/
def size : Nat := 1024 * 8

/-- The library function bytes.Trim(s, cutset) for a cutset of single-byte
characters: the bytes of the cutset are sliced off at both ends of s. -/
def Trim (s : Bytes) (cutset : Bytes) : Bytes :=
  ((s.rdropWhile fun b => decide (b ∈ cutset)).dropWhile fun b => decide (b ∈ cutset))

/-- What one call of pipe.Read(body) returns: the bytes the transport copied to
the front of the buffer, whose number is the count n, and the error (none is
nil). -/
structure ReadOutcome where
  data : Bytes
  err : Option String
deriving DecidableEq, Repr

/-- The buffer after the read: the delivered bytes overwrite its front. -/
def afterRead (body : Bytes) (data : Bytes) : Bytes :=
  data ++ body.drop data.length

/-- The conversion string(bts), each byte read as one character (exact for
ASCII text). -/
def bytesToString (bts : Bytes) : String :=
  String.mk (bts.map Char.ofNat)

/-- The two fmt.Printf calls of the read loop after a failed json.Unmarshal;
nothing when the decoder returned nil. -/
def logDecodeError (w : World) (messagejson : MessageRecv) (bts : Bytes)
    (err : Option String) : World :=
  match err with
  | some e =>
    { w with
      events := w.events ++
        [Event.Printf ("error with json: " ++ messagejson.Group ++ "." ++ messagejson.Name ++
            ": " ++ e ++ "\n"),
          Event.Printf (bytesToString bts ++ "\n")] }
  | none => w

/-- One round of the read loop of NewMockConn, from the return of pipe.Read to
the allocation of the next buffer.  The decoder json.Unmarshal belongs to the
standard library and is a parameter: it gives the message it left in the zero
MessageRecv and its error.  The result is the world and the buffer the next
round reads into: on continue the buffer is kept, otherwise a new zero buffer
is made.  When Destroy blocks, the round never gets past it. -/
def loopBody (unmarshal : Bytes → MessageRecv × Option String) (w : World) (body : Bytes)
    (r : ReadOutcome) : Result (World × Bytes) :=
  let n := r.data.length
  let body := afterRead body r.data
  if n = 0 then Result.returned (w, body)
  else
    let torn := match r.err with
      | some _ => Destroy w
      | none => Result.returned w
    match torn with
    | Result.blocked es => Result.blocked es
    | Result.returned w1 =>
      let bts := Trim body [0]
      let dec := unmarshal bts
      let w2 := logDecodeError w1 dec.1 bts dec.2
      Result.returned (dispatch w2 dec.1, List.replicate size 0)

/-- The read loop over the successive outcomes of pipe.Read; it stops for good
when a round blocks. -/
def readLoop (unmarshal : Bytes → MessageRecv × Option String) (w : World) (body : Bytes) :
    List ReadOutcome → Result (World × Bytes)
  | [] => Result.returned (w, body)
  | r :: rs =>
    match loopBody unmarshal w body r with
    | Result.blocked es => Result.blocked es
    | Result.returned s => readLoop unmarshal s.1 s.2 rs

/-- The calls AddCommand(group, set) of a list, in order. -/
def AddCommands (w : World) (cmds : List (String × MessageStruct)) : Except String World :=
  cmds.foldlM (fun w c => AddCommand w c.1 c.2) w

/-- The byte slices a list of events writes to the transport end pipe. -/
def written (pipe : Nat) (es : List Event) : List Bytes :=
  es.filterMap fun e =>
    match e with
    | Event.Write p body _ _ => if p = pipe then some body else none
    | _ => none

/-- The bytes of an ASCII text. -/
def ascii (s : String) : Bytes :=
  s.toList.map Char.toNat


/-- The connection fresh with one waiter: GetDone was called once. -/
def waiting : World :=
  (GetDone fresh).1

/-- The connection served with one waiter: GetDone was called once. -/
def servedWaiting : World :=
  (GetDone served).1

/-- A new connection on which the waiter of channel 0 never receives; the
waiter of every other channel receives once. -/
def deaf : World :=
  { fresh with recv := fun c => if c = 0 then 0 else 1 }

/-- The connection served with one waiter, which never receives. -/
def servedDeaf : World :=
  { servedWaiting with recv := fun _ => 0 }

/-- The envelope auth.login with the body object user = a, as JSON text. -/
def loginBytes : Bytes :=
  ascii "\x7b\"group\":\"auth\",\"name\":\"login\",\"body\":\x7b\"user\":\"a\"\x7d\x7d"

/-- The body object user = a, as JSON text. -/
def userBytes : Bytes :=
  ascii "\x7b\"user\":\"a\"\x7d"

/-- An envelope that names auth.login and then gives name a second time, as a
number: json.Unmarshal reports the type error and keeps what it stored. -/
def mistypedBytes : Bytes :=
  ascii "\x7b\"group\":\"auth\",\"name\":\"login\",\"name\":1\x7d"

/-- The envelope of the group misc with the empty name, as JSON text. -/
def emptyNameBytes : Bytes :=
  ascii "\x7b\"group\":\"misc\",\"name\":\"\"\x7d"

/-- Text that is not JSON. -/
def garbageBytes : Bytes :=
  ascii "hello"

/-- A decoder that stands for json.Unmarshal on the buffers of the examples:
the three envelopes above, and a syntax error, which leaves the message zero,
on any other text. -/
def decoder (bts : Bytes) : MessageRecv × Option String :=
  if bts = loginBytes then ({ Group := "auth", Name := "login", Body := userBytes }, none)
  else if bts = mistypedBytes then
    ({ Group := "auth", Name := "login", Body := [] },
      some "json: cannot unmarshal number into Go struct field MessageRecv.name of type string")
  else if bts = emptyNameBytes then ({ Group := "misc", Name := "", Body := [] }, none)
  else ({ Group := "", Name := "", Body := [] }, some "invalid character")

/-- The outbound message auth.login; the payload number 1 stands for the object
user = a. -/
def loginMessage : MessageSend :=
  { Group := "auth", Name := "login", Body := 1 }

/-- An encoder that stands for json.Marshal on the message of the example. -/
def encoder (ms : MessageSend) : Except String Bytes :=
  if ms = loginMessage then Except.ok loginBytes
  else Except.error "json: unsupported value"

/-- The raw body bytes that stand for a payload, for the example: the text of
the object user = a is the payload number 1. -/
def decodesTo (raw : Bytes) (payload : Nat) : Prop :=
  raw = userBytes ∧ payload = 1

/-- The server side of the pair NewMockConnHelper builds, after AddCommand of
the map at address 0 under auth. -/
def server : World :=
  { fresh with
    m := { (NewMockConnHelper 0 1 5).1 with cmd := AList.singleton "auth" (some 0) } }

/-- The client side of the pair NewMockConnHelper builds. -/
def client : World :=
  { fresh with m := (NewMockConnHelper 0 1 5).2 }

/-- A receive buffer that starts with a zero byte: 0, an empty JSON object, and
zero bytes up to the size of the buffer. -/
def leadingZero : Bytes :=
  [0, 123, 125] ++ List.replicate (size - 3) 0

/-! ## Theorems -/

/-- Looking a key up among the entries a range loop visits is reading the map. -/
theorem dlookup_mapentries (hp : Heap) (mp : MessageStruct) (k : String) :
    List.dlookup k (mapentries hp mp) = mapaccess hp mp k := by
  cases mp <;> rfl

/-- The range loop of AddCommand into a map object that is not nil never panics:
it inserts the visited entries, in order, into that one map object. -/
theorem foldlM_mapassign_some (a : Nat) (es : List (Sigma fun _ : String => Handler)) :
    ∀ hp : Heap, es.foldlM (fun hp kv => mapassign hp (some a) kv.1 kv.2) hp =
      Except.ok (Function.update hp a (es.foldl (fun mo kv => mo.insert kv.1 kv.2) (hp a))) := by
  induction es with
  | nil => intro hp; simp [List.foldlM, pure, Except.pure]
  | cons e es ih =>
    intro hp
    have ih' := ih (Function.update hp a ((hp a).insert e.1 e.2))
    simp only [List.foldlM, mapassign, bind, Except.bind, List.foldl] at ih' ⊢
    rw [ih']
    simp

/-- After inserting entries with distinct keys, a key holds the value the entries
give it, or else the value it held before. -/
theorem lookup_foldl_insert (k : String) (es : List (Sigma fun _ : String => Handler)) :
    es.NodupKeys → ∀ mo : MapObject,
      (es.foldl (fun mo kv => mo.insert kv.1 kv.2) mo).lookup k =
        ((List.dlookup k es).orElse fun _ => mo.lookup k) := by
  induction es with
  | nil => intro _ mo; simp
  | cons e es ih =>
    intro hnd mo
    obtain ⟨hnot, hnd'⟩ := List.nodupKeys_cons.mp hnd
    rw [List.foldl, ih hnd']
    by_cases hk : k = e.1
    · subst hk
      rw [List.dlookup_cons_eq]
      simp [List.dlookup_eq_none.mpr hnot]
    · rw [List.dlookup_cons_ne _ _ hk, AList.lookup_insert_ne hk]

/-- The range loop of AddCommand into a nil map panics as soon as there is an
entry to assign. -/
theorem foldlM_mapassign_none (es : List (Sigma fun _ : String => Handler)) (hne : es ≠ []) (hp : Heap) :
    es.foldlM (fun hp kv => mapassign hp none kv.1 kv.2) hp =
      Except.error "assignment to entry in nil map" := by
  cases es with
  | nil => exact absurd rfl hne
  | cons e es => rfl

/-- One call of AddCommand on a group that does not hold a nil map succeeds,
and afterwards a name resolves to the handler the argument held for it, or else
to what it resolved to before; the group holds the map object it held before, or
the argument when it was not registered. -/
theorem AddCommand_spec (w : World) (G : String) (X : MessageStruct)
    (hG : w.m.cmd.lookup G ≠ some none) :
    ∃ w1, AddCommand w G X = Except.ok w1 ∧
      (∀ n, resolve w1 G n = ((mapaccess w.heap X n).orElse fun _ => resolve w G n)) ∧
      w1.m.cmd.lookup G = some ((w.m.cmd.lookup G).getD X) ∧
      (∀ Y, some Y ≠ w1.m.cmd.lookup G → ∀ n, mapaccess w1.heap Y n = mapaccess w.heap Y n) := by
  unfold AddCommand
  cases hl : w.m.cmd.lookup G with
  | none =>
    refine ⟨_, rfl, ?_, ?_, ?_⟩
    · intro n
      simp [resolve, hl, AList.lookup_insert]
    · simp [AList.lookup_insert]
    · intro Y _ n; rfl
  | some p =>
    cases p with
    | none => exact absurd hl hG
    | some a =>
      simp only [foldlM_mapassign_some]
      refine ⟨_, rfl, ?_, ?_, ?_⟩
      · intro n
        simp only [resolve, hl, AList.lookup_insert, mapaccess, Function.update_same]
        rw [lookup_foldl_insert n _ (by cases X <;> simp [mapentries, AList.nodupKeys]), dlookup_mapentries]
        rfl
      · simp [AList.lookup_insert]
      · intro Y hY n
        simp only [AList.lookup_insert, ne_eq, Option.some.injEq] at hY
        cases Y with
        | none => rfl
        | some b =>
          have hb : b ≠ a := fun h => hY (by rw [h])
          simp [mapaccess, Function.update_noteq hb]

/-- C1, as amended.  Let G not end up holding a nil map: G, if registered, holds a
map object, and A is not nil when G is not yet registered.  Then AddCommand(G, A)
followed by AddCommand(G, B) both return, and afterwards (G, n) resolves to the
handler B holds for n for every n in B, to the handler A holds for n for every n
in A that is not in B, and to the earlier handler for every n that resolved in G
before and is in neither.  A is read when the first call is made and B when the
second call is made; the last part says that B is then what it was at the start
unless B is the very map object G holds. -/
theorem AddCommand_twice_merge (w : World) (G : String) (A B : MessageStruct)
    (hG : w.m.cmd.lookup G ≠ some none) (hA : w.m.cmd.lookup G = none → A ≠ none) :
    ∃ w1 w2, AddCommand w G A = Except.ok w1 ∧ AddCommand w1 G B = Except.ok w2 ∧
      (∀ n h, mapaccess w1.heap B n = some h → resolve w2 G n = some h) ∧
      (∀ n h, mapaccess w.heap A n = some h → mapaccess w1.heap B n = none →
        resolve w2 G n = some h) ∧
      (∀ n h, resolve w G n = some h → mapaccess w.heap A n = none →
        mapaccess w1.heap B n = none → resolve w2 G n = some h) ∧
      (some B ≠ w1.m.cmd.lookup G → ∀ n, mapaccess w1.heap B n = mapaccess w.heap B n) := by
  obtain ⟨w1, h1, hr1, hl1, hf1⟩ := AddCommand_spec w G A hG
  have hG1 : w1.m.cmd.lookup G ≠ some none := by
    rw [hl1]
    cases hl : w.m.cmd.lookup G with
    | none => simpa using hA hl
    | some p => simpa [hl] using hG
  obtain ⟨w2, h2, hr2, _, _⟩ := AddCommand_spec w1 G B hG1
  refine ⟨w1, w2, h1, h2, ?_, ?_, ?_, fun hB => hf1 B hB⟩
  · intro n h hB
    rw [hr2, hB]; rfl
  · intro n h hAn hB
    rw [hr2, hB, Option.orElse, hr1, hAn]; rfl
  · intro n h hw hAn hB
    rw [hr2, hB, Option.orElse, hr1, hAn, Option.orElse, hw]

/-- C1, witness: a new connection, the group auth, A the map at address 0 and B
the map at address 1. -/
theorem AddCommand_twice_merge_witness :
    (fresh.m.cmd.lookup "auth" ≠ some none) ∧ (fresh.m.cmd.lookup "auth" = none → some 0 ≠ (none : MessageStruct)) ∧
    ∃ w1 w2, AddCommand fresh "auth" (some 0) = Except.ok w1 ∧
      AddCommand w1 "auth" (some 1) = Except.ok w2 ∧
      (∀ n h, mapaccess w1.heap (some 1) n = some h → resolve w2 "auth" n = some h) ∧
      (∀ n h, mapaccess fresh.heap (some 0) n = some h → mapaccess w1.heap (some 1) n = none →
        resolve w2 "auth" n = some h) ∧
      (∀ n h, resolve fresh "auth" n = some h → mapaccess fresh.heap (some 0) n = none →
        mapaccess w1.heap (some 1) n = none → resolve w2 "auth" n = some h) ∧
      (some (some 1) ≠ w1.m.cmd.lookup "auth" →
        ∀ n, mapaccess w1.heap (some 1) n = mapaccess fresh.heap (some 1) n) :=
  ⟨by simp [fresh, NewMockConn], by simp,
    AddCommand_twice_merge fresh "auth" (some 0) (some 1) (by simp [fresh, NewMockConn]) (by simp)⟩

/-- C1, counterexample: on a new connection AddCommand(auth, nil) returns and
registers the nil map; B holds a handler for login, and AddCommand(auth, B)
panics on the assignment into the nil map, so login never resolves. -/
theorem AddCommand_nil_then_merge_panics :
    ∃ w1, AddCommand fresh "auth" none = Except.ok w1 ∧
      mapaccess w1.heap (some 1) "login" = some handlerB ∧
      AddCommand w1 "auth" (some 1) = Except.error "assignment to entry in nil map" := by
  refine ⟨_, rfl, rfl, rfl⟩

/-- C2.  When g is registered and its map holds the handler h under n (n may be
the empty name), ExecuteCommand(g, n, body) returns what h returns on the logger
of the connection and body, calls h exactly once with these arguments (the one
event it adds), and leaves the connection and the heap as they were. -/
theorem ExecuteCommand_invokes (w : World) (g n : String) (body : Bytes) (p : MessageStruct)
    (h : Handler) (hg : w.m.cmd.lookup g = some p) (hn : mapaccess w.heap p n = some h) :
    (ExecuteCommand w g n body).2 = h w.m.log body ∧
      (ExecuteCommand w g n body).1.events = w.events ++ [Event.call h w.m.log body] ∧
      (ExecuteCommand w g n body).1.m = w.m ∧
      (ExecuteCommand w g n body).1.heap = w.heap ∧
      (ExecuteCommand w g n body).1.chans = w.chans := by
  simp [ExecuteCommand, hg, hn]

/-- C2, witness: the group misc holds a handler under the empty name. -/
theorem ExecuteCommand_invokes_witness :
    served.m.cmd.lookup "misc" = some (some 2) ∧ mapaccess served.heap (some 2) "" = some handlerA ∧
      (ExecuteCommand served "misc" "" [1, 2]).2 = handlerA served.m.log [1, 2] ∧
      (ExecuteCommand served "misc" "" [1, 2]).1.events =
        served.events ++ [Event.call handlerA served.m.log [1, 2]] ∧
      (ExecuteCommand served "misc" "" [1, 2]).1.m = served.m ∧
      (ExecuteCommand served "misc" "" [1, 2]).1.heap = served.heap ∧
      (ExecuteCommand served "misc" "" [1, 2]).1.chans = served.chans :=
  ⟨rfl, rfl, ExecuteCommand_invokes served "misc" "" [1, 2] (some 2) handlerA rfl rfl⟩

/-- C3.  ExecuteCommand returns one of the two not-found errors without any event
(so without calling a handler) exactly when the group is not registered or the
name is not registered within the group; an unregistered group gives errGroup, an
unregistered name in a registered group gives errName, nothing else changes, and
the two errors differ. -/
theorem ExecuteCommand_notFound (w : World) (g n : String) (body : Bytes) :
    (((ExecuteCommand w g n body).1.events = w.events ∧
        ((ExecuteCommand w g n body).2 = some errGroup ∨
          (ExecuteCommand w g n body).2 = some errName)) ↔
      (w.m.cmd.lookup g = none ∨
        ∃ p, w.m.cmd.lookup g = some p ∧ mapaccess w.heap p n = none)) ∧
    (w.m.cmd.lookup g = none → ExecuteCommand w g n body = (w, some errGroup)) ∧
    (∀ p, w.m.cmd.lookup g = some p → mapaccess w.heap p n = none →
      ExecuteCommand w g n body = (w, some errName)) ∧
    errGroup ≠ errName := by
  refine ⟨?_, ?_, ?_, by decide⟩
  · cases hg : w.m.cmd.lookup g with
    | none => simp [ExecuteCommand, hg]
    | some p =>
      cases hn : mapaccess w.heap p n with
      | none => simp [ExecuteCommand, hg, hn]
      | some h => simp [ExecuteCommand, hg, hn]
  · intro hg
    simp [ExecuteCommand, hg]
  · intro p hg hn
    simp [ExecuteCommand, hg, hn]

/-- C4.  After RemoveCommandsByGroup(G), ExecuteCommand(G, name, body) returns
the group-not-found error and changes nothing, whether or not G was registered;
no handler is called or launched by either method. -/
theorem ExecuteCommand_after_RemoveCommandsByGroup (w : World) (G name : String) (body : Bytes) :
    ExecuteCommand (RemoveCommandsByGroup w G) G name body =
      (RemoveCommandsByGroup w G, some errGroup) ∧
    invocations (RemoveCommandsByGroup w G).events = invocations w.events := by
  constructor
  · simp [ExecuteCommand, RemoveCommandsByGroup, AList.lookup_erase]
  · simp [RemoveCommandsByGroup, invocations, List.countP_append, List.countP_cons]

/-- Erasing a key that is absent leaves a finite map as it is. -/
theorem AList_erase_of_lookup_none {β : Type} (s : AList (fun _ : String => β)) (k : String)
    (h : s.lookup k = none) : s.erase k = s := by
  apply AList.ext
  have hk : k ∉ s.keys := by
    rw [← AList.mem_keys]
    exact AList.lookup_eq_none.mp h
  simp [AList.erase, List.kerase_of_not_mem_keys hk]

/-- C6.  After RemoveCommandsByGroup(G) the group G is not registered and none of
its names resolves; when G was not registered the registry is identical; every
other group holds the map it held and resolves every name as before; the heap,
the list of shutdown channels and the channel counter are unchanged. -/
theorem RemoveCommandsByGroup_frame (w : World) (G : String) :
    (RemoveCommandsByGroup w G).m.cmd.lookup G = none ∧
    (∀ n, resolve (RemoveCommandsByGroup w G) G n = none) ∧
    (w.m.cmd.lookup G = none →
      (RemoveCommandsByGroup w G).m.cmd = w.m.cmd) ∧
    (∀ g, g ≠ G → (RemoveCommandsByGroup w G).m.cmd.lookup g = w.m.cmd.lookup g) ∧
    (∀ g, g ≠ G → ∀ n, resolve (RemoveCommandsByGroup w G) g n = resolve w g n) ∧
    (RemoveCommandsByGroup w G).heap = w.heap ∧
    (RemoveCommandsByGroup w G).m.done = w.m.done ∧
    (RemoveCommandsByGroup w G).chans = w.chans := by
  refine ⟨?_, ?_, ?_, ?_, ?_, rfl, rfl, rfl⟩
  · simp [RemoveCommandsByGroup, AList.lookup_erase]
  · intro n
    simp [resolve, RemoveCommandsByGroup, AList.lookup_erase]
  · intro h
    exact AList_erase_of_lookup_none _ _ h
  · intro g hg
    simp [RemoveCommandsByGroup, AList.lookup_erase_ne hg]
  · intro g hg n
    simp [resolve, RemoveCommandsByGroup, AList.lookup_erase_ne hg]

/-- The loop of RemoveCommandsByNames deletes each name from the map the group
holds and logs it; the connection itself is not written. -/
theorem foldl_removeName (G : String) (p : MessageStruct) (names : List String) :
    ∀ w : World, w.m.cmd.lookup G = some p →
      names.foldl (removeName G) w =
        { w with
          heap := names.foldl (fun hp v => mapdelete hp p v) w.heap
          events := w.events ++
            names.map fun v => Event.Debug w.m.log ("conn.RemoveCommandsByNames: " ++ G ++ "." ++ v) } := by
  induction names with
  | nil => intro w _; simp
  | cons v vs ih =>
    intro w hw
    rw [List.foldl, ih (removeName G w v) hw]
    simp [removeName, hw]

/-- Deleting names from a map object changes that one map object. -/
theorem foldl_mapdelete_some (a : Nat) (names : List String) :
    ∀ hp : Heap, names.foldl (fun hp v => mapdelete hp (some a) v) hp =
      Function.update hp a (names.foldl (fun mo v => mo.erase v) (hp a)) := by
  induction names with
  | nil => intro hp; simp
  | cons v vs ih =>
    intro hp
    rw [List.foldl, ih]
    simp [mapdelete]

/-- Deleting names from a nil map changes nothing. -/
theorem foldl_mapdelete_none (names : List String) (hp : Heap) :
    names.foldl (fun hp v => mapdelete hp none v) hp = hp := by
  induction names with
  | nil => rfl
  | cons v vs ih => simp [mapdelete]

/-- After erasing names, a key is absent when it is one of them and is as before
otherwise. -/
theorem lookup_foldl_erase (n : String) (names : List String) :
    ∀ mo : MapObject, (names.foldl (fun mo v => mo.erase v) mo).lookup n =
      if n ∈ names then none else mo.lookup n := by
  induction names with
  | nil => intro mo; simp
  | cons v vs ih =>
    intro mo
    rw [List.foldl, ih]
    by_cases hv : n = v
    · subst hv
      simp [AList.lookup_erase]
    · simp [hv, AList.lookup_erase_ne hv]

/-- What RemoveCommandsByNames leaves on the heap: the map object the group
holds loses the names, every other map object is as before. -/
theorem RemoveCommandsByNames_heap (w : World) (G : String) (names : List String) (p : MessageStruct)
    (hp : w.m.cmd.lookup G = some p) (q : MessageStruct) (n : String) :
    mapaccess (RemoveCommandsByNames w G names).heap q n =
      if q = p ∧ n ∈ names then none else mapaccess w.heap q n := by
  simp only [RemoveCommandsByNames, hp, foldl_removeName G p names w hp]
  cases p with
  | none =>
    rw [foldl_mapdelete_none]
    cases q <;> simp [mapaccess]
  | some a =>
    rw [foldl_mapdelete_some]
    cases q with
    | none => simp [mapaccess]
    | some b =>
      by_cases hb : b = a
      · subst hb
        simp [mapaccess, lookup_foldl_erase]
      · simp [mapaccess, Function.update_noteq hb, hb]

/-- The method RemoveCommandsByNames does not write the connection: the set of
groups and the map object each one holds stay the same. -/
theorem RemoveCommandsByNames_m (w : World) (G : String) (names : List String) :
    (RemoveCommandsByNames w G names).m = w.m := by
  unfold RemoveCommandsByNames
  cases hp : w.m.cmd.lookup G with
  | none => rfl
  | some p => simp [foldl_removeName G p names w hp]

/-- C5, as amended.  After RemoveCommandsByNames(G, names...) a name resolves in
G exactly when it resolved before and is not in names, to the same handler; the
connection (so the set of groups) is unchanged; every group that does not hold
the same map object as G resolves every name as before; and when G is not
registered nothing at all changes. -/
theorem RemoveCommandsByNames_frame (w : World) (G : String) (names : List String) :
    (∀ n, resolve (RemoveCommandsByNames w G names) G n =
        if n ∈ names then none else resolve w G n) ∧
    (RemoveCommandsByNames w G names).m = w.m ∧
    (∀ g, (∀ a, w.m.cmd.lookup G = some (some a) → w.m.cmd.lookup g ≠ some (some a)) →
      ∀ n, resolve (RemoveCommandsByNames w G names) g n = resolve w g n) ∧
    (w.m.cmd.lookup G = none → RemoveCommandsByNames w G names = w) := by
  have hm := RemoveCommandsByNames_m w G names
  refine ⟨?_, hm, ?_, ?_⟩
  · intro n
    cases hp : w.m.cmd.lookup G with
    | none => simp [resolve, hm, hp]
    | some p => simp [resolve, hm, hp, RemoveCommandsByNames_heap w G names p hp]
  · intro g hg n
    cases hp : w.m.cmd.lookup G with
    | none => simp [RemoveCommandsByNames, hp]
    | some p =>
      cases hq : w.m.cmd.lookup g with
      | none => simp [resolve, hm, hq]
      | some q =>
        simp only [resolve, hm, hq, RemoveCommandsByNames_heap w G names p hp]
        cases p with
        | none =>
          cases q with
          | none => simp [mapaccess]
          | some b => simp
        | some a =>
          have hne : q ≠ some a := fun h => hg a hp (by rw [hq, h])
          simp [hne]
  · intro hp
    simp [RemoveCommandsByNames, hp]

/-- C5, counterexample: the one map at address 0 is registered under auth and
under chat by two calls of AddCommand; removing login from auth removes it from
chat too. -/
theorem RemoveCommandsByNames_shared_map :
    AddCommand fresh "auth" (some 0) >>= (fun w1 => AddCommand w1 "chat" (some 0)) = Except.ok shared ∧
    resolve shared "chat" "login" = some handlerA ∧
    resolve (RemoveCommandsByNames shared "auth" ["login"]) "chat" "login" = none := by
  refine ⟨rfl, rfl, rfl⟩

/-- The channels k calls of GetDone return are the next k channel numbers, and
the calls append them to the list and change nothing else. -/
theorem GetDoneTimes_spec (k : Nat) : ∀ w : World,
    (GetDoneTimes k w).2 = List.range' w.chans k ∧
    (GetDoneTimes k w).1 =
      { w with chans := w.chans + k, m := { w.m with done := w.m.done ++ List.range' w.chans k } } := by
  induction k with
  | zero => intro w; simp [GetDoneTimes]
  | succ k ih =>
    intro w
    obtain ⟨h2, h1⟩ := ih (GetDone w).1
    constructor
    · simp only [GetDoneTimes, h2]
      simp [GetDone, List.range'_succ]
    · simp only [GetDoneTimes, h1]
      simp [GetDone, List.range'_succ, Nat.add_assoc, Nat.add_comm 1 k]

/-- Sending once on each channel of a list sends on a channel as often as the
list holds it. -/
theorem sentTo_map_send (c : Nat) (cs : List Nat) :
    sentTo c (cs.map Event.send) = cs.count c := by
  induction cs with
  | nil => rfl
  | cons d ds ih =>
    simp only [sentTo] at ih
    simp only [sentTo, List.map_cons, List.countP_cons, List.count_cons, ih]

/-- The loop of Destroy returns exactly when every channel has at least as many
receives to come as the list holds it; it has then sent once per entry, in
order, used up that many receives, and changed nothing else. -/
theorem sendAll_returned (done : List Nat) :
    ∀ w : World, (∀ c, done.count c ≤ w.recv c) →
      sendAll done w =
        Result.returned
          { w with
            recv := fun c => w.recv c - done.count c
            events := w.events ++ done.map Event.send } := by
  induction done with
  | nil => intro w _; simp [sendAll]
  | cons v vs ih =>
    intro w h
    have hv : w.recv v ≠ 0 := by
      have := h v
      simp only [List.count_cons_self] at this
      omega
    simp only [sendAll, hv, if_false]
    rw [ih]
    · congr 1
      have hrecv : (fun c => (Function.update w.recv v (w.recv v - 1)) c - vs.count c) =
          fun c => w.recv c - (v :: vs).count c := by
        funext c
        by_cases hc : c = v
        · subst hc
          simp only [Function.update_same, List.count_cons_self]
          omega
        · rw [Function.update_noteq hc, List.count_cons_of_ne hc]
      simp only [hrecv, List.map_cons, List.append_assoc, List.singleton_append]
    · intro c
      by_cases hc : c = v
      · subst hc
        have := h c
        simp only [List.count_cons_self] at this
        simp only [Function.update_same]
        omega
      · have := h c
        rw [List.count_cons_of_ne hc] at this
        simpa [Function.update_noteq hc] using this

/-- The loop of Destroy blocks when some channel has fewer receives to come than
the list holds it; no Close is among the events up to that point unless it was
there before. -/
theorem sendAll_blocked (done : List Nat) :
    ∀ w : World, (∃ c, w.recv c < done.count c) →
      ∃ es, sendAll done w = Result.blocked es ∧ closes es = closes w.events := by
  induction done with
  | nil => intro w h; simp at h
  | cons v vs ih =>
    intro w h
    by_cases hv : w.recv v = 0
    · exact ⟨w.events, by simp [sendAll, hv], rfl⟩
    · simp only [sendAll, hv, if_false]
      obtain ⟨c, hc⟩ := h
      obtain ⟨es, hes, hcl⟩ := ih
        { w with
          recv := Function.update w.recv v (w.recv v - 1)
          events := w.events ++ [Event.send v] }
        ⟨c, by
          by_cases hcv : c = v
          · subst hcv
            simp only [List.count_cons_self] at hc
            simp only [Function.update_same]
            omega
          · rw [List.count_cons_of_ne hcv] at hc
            simpa [Function.update_noteq hcv] using hc⟩
      exact ⟨es, hes, by simpa [closes, List.countP_append, List.countP_cons] using hcl⟩

/-- A call of Destroy whose sends all find a receiver returns: it has sent once
per registered channel, in order, then closed the transport, used up one receive
per send, and left the connection, the heap and the channel counter as they
were. -/
theorem Destroy_returned (w : World) (h : ∀ c, w.m.done.count c ≤ w.recv c) :
    Destroy w =
      Result.returned
        { w with
          recv := fun c => w.recv c - w.m.done.count c
          events := w.events ++ w.m.done.map Event.send ++ [Event.Close w.m.pipe] } := by
  simp only [Destroy, sendAll_returned w.m.done w h]

/-- A call of Destroy with a send that finds no receiver blocks, and has not
closed the transport. -/
theorem Destroy_blocked (w : World) (h : ∃ c, w.recv c < w.m.done.count c) :
    ∃ es, Destroy w = Result.blocked es ∧ closes es = closes w.events := by
  obtain ⟨es, hes, hcl⟩ := sendAll_blocked w.m.done w h
  exact ⟨es, by simp only [Destroy, hes], hcl⟩

/-- C7, as amended.  On a connection with no channel registered yet, k calls of
GetDone return k distinct channels and leave exactly these in the list, in call
order.  When every returned channel has a waiter that receives, one Destroy
returns: it has added one send per returned channel, in that order, followed by
one Close of the transport, so every returned channel is sent to exactly once
and the transport is closed exactly once; every waiter has received (one
receive less is to come on its channel) and the connection is as it was. -/
theorem Destroy_after_GetDone (k : Nat) (w : World) (h0 : w.m.done = [])
    (hr : ∀ c ∈ (GetDoneTimes k w).2, 0 < w.recv c) :
    ((GetDoneTimes k w).2.length = k ∧ (GetDoneTimes k w).2.Nodup) ∧
    (GetDoneTimes k w).1.m.done = (GetDoneTimes k w).2 ∧
    (∃ w1, Destroy (GetDoneTimes k w).1 = Result.returned w1 ∧
      w1.events =
        w.events ++ (GetDoneTimes k w).2.map Event.send ++ [Event.Close w.m.pipe] ∧
      (∀ c ∈ (GetDoneTimes k w).2, w1.recv c = w.recv c - 1) ∧
      w1.m = (GetDoneTimes k w).1.m ∧ w1.heap = w.heap) ∧
    (∀ c ∈ (GetDoneTimes k w).2,
      sentTo c ((GetDoneTimes k w).2.map Event.send ++ [Event.Close w.m.pipe]) = 1) ∧
    closes ((GetDoneTimes k w).2.map Event.send ++ [Event.Close w.m.pipe]) = 1 := by
  obtain ⟨h2, h1⟩ := GetDoneTimes_spec k w
  have hnd : (List.range' w.chans k).Nodup := List.nodup_range' w.chans k
  rw [h2] at hr
  have hcount : ∀ c, (List.range' w.chans k).count c ≤ w.recv c := by
    intro c
    by_cases hc : c ∈ List.range' w.chans k
    · rw [List.count_eq_one_of_mem hnd hc]
      exact hr c hc
    · rw [List.count_eq_zero_of_not_mem hc]
      exact Nat.zero_le _
  refine ⟨⟨by simp [h2], by simpa [h2] using hnd⟩, ?_, ?_, ?_, ?_⟩
  · simp [h1, h2, h0]
  · rw [h1, h2]
    refine ⟨_, Destroy_returned _ (by simpa [h0] using hcount), ?_, ?_, rfl, rfl⟩
    · simp [h0]
    · intro c hc
      simp [h0, List.count_eq_one_of_mem hnd hc]
  · intro c hc
    rw [h2] at hc ⊢
    have := sentTo_map_send c (List.range' w.chans k)
    simp only [sentTo, List.countP_append] at this ⊢
    rw [this, List.count_eq_one_of_mem hnd hc]
    simp
  · simp [closes, List.countP_append, List.countP_map, Function.comp_def]

/-- C7, witness: two waiters on a new connection, each of which receives. -/
theorem Destroy_after_GetDone_witness :
    (fresh.m.done = [] ∧ ∀ c ∈ (GetDoneTimes 2 fresh).2, 0 < fresh.recv c) ∧
    (((GetDoneTimes 2 fresh).2.length = 2 ∧ (GetDoneTimes 2 fresh).2.Nodup) ∧
    (GetDoneTimes 2 fresh).1.m.done = (GetDoneTimes 2 fresh).2 ∧
    (∃ w1, Destroy (GetDoneTimes 2 fresh).1 = Result.returned w1 ∧
      w1.events =
        fresh.events ++ (GetDoneTimes 2 fresh).2.map Event.send ++ [Event.Close fresh.m.pipe] ∧
      (∀ c ∈ (GetDoneTimes 2 fresh).2, w1.recv c = fresh.recv c - 1) ∧
      w1.m = (GetDoneTimes 2 fresh).1.m ∧ w1.heap = fresh.heap) ∧
    (∀ c ∈ (GetDoneTimes 2 fresh).2,
      sentTo c ((GetDoneTimes 2 fresh).2.map Event.send ++ [Event.Close fresh.m.pipe]) = 1) ∧
    closes ((GetDoneTimes 2 fresh).2.map Event.send ++ [Event.Close fresh.m.pipe]) = 1) :=
  ⟨⟨rfl, fun _ _ => Nat.one_pos⟩,
    Destroy_after_GetDone 2 fresh rfl (fun _ _ => Nat.one_pos)⟩

/-- C7, counterexample: GetDone is called twice and the waiter of the first
channel never receives.  Destroy blocks at its first send: no channel is sent
to, the second waiter, which does receive, gets nothing, and the transport is
not closed. -/
theorem Destroy_blocks_without_receiver :
    (GetDoneTimes 2 deaf).2 = [0, 1] ∧ deaf.recv 0 = 0 ∧ deaf.recv 1 = 1 ∧
    Destroy (GetDoneTimes 2 deaf).1 = Result.blocked [] := by
  refine ⟨rfl, rfl, rfl, rfl⟩

/-- C8, as amended.  Destroy has no guard, so after a call that returned, a
second call goes through the same steps again.  The first call has sent once on
every registered channel and closed the transport, and left the connection, the
heap and the channel counter as they were.  The second call returns exactly when
every registered channel is received from once more, and has then sent on every
registered channel a second time and closed the transport a second time.  With
no registered channel it closes the transport a second time.  With a first
registered channel whose waiter received only once it blocks at that send: it
never returns, sends nothing more and does not close the transport again. -/
theorem Destroy_twice (w w1 : World) (h1 : Destroy w = Result.returned w1) :
    (w1.events = w.events ++ w.m.done.map Event.send ++ [Event.Close w.m.pipe] ∧
      (∀ c, w1.recv c = w.recv c - w.m.done.count c) ∧
      w1.m = w.m ∧ w1.heap = w.heap ∧ w1.chans = w.chans) ∧
    ((∃ w2, Destroy w1 = Result.returned w2) ↔ ∀ c, 2 * w.m.done.count c ≤ w.recv c) ∧
    (∀ w2, Destroy w1 = Result.returned w2 →
      w2.events =
        w.events ++ (w.m.done.map Event.send ++ [Event.Close w.m.pipe]) ++
          (w.m.done.map Event.send ++ [Event.Close w.m.pipe]) ∧
      (∀ c, sentTo c w2.events = sentTo c w1.events + w.m.done.count c) ∧
      closes w2.events = closes w1.events + 1) ∧
    (w.m.done = [] →
      Destroy w1 = Result.returned { w1 with events := w1.events ++ [Event.Close w.m.pipe] }) ∧
    (∀ c cs, w.m.done = c :: cs → w.recv c = 1 → Destroy w1 = Result.blocked w1.events) := by
  have hfirst : ∀ c, w.m.done.count c ≤ w.recv c := by
    by_contra hcon
    push_neg at hcon
    obtain ⟨es, hes, _⟩ := Destroy_blocked w hcon
    rw [hes] at h1
    cases h1
  have hw1 := Destroy_returned w hfirst
  rw [h1] at hw1
  simp only [Result.returned.injEq] at hw1
  subst hw1
  refine ⟨⟨rfl, fun _ => rfl, rfl, rfl, rfl⟩, ?_, ?_, ?_, ?_⟩
  · constructor
    · rintro ⟨w2, h2⟩
      by_contra hcon
      push_neg at hcon
      obtain ⟨c, hc⟩ := hcon
      obtain ⟨es, hes, _⟩ := Destroy_blocked
        { w with
          recv := fun c => w.recv c - w.m.done.count c
          events := w.events ++ w.m.done.map Event.send ++ [Event.Close w.m.pipe] }
        ⟨c, by show w.recv c - w.m.done.count c < w.m.done.count c; omega⟩
      rw [hes] at h2
      cases h2
    · intro h
      exact ⟨_, Destroy_returned _ (by
        intro c
        show w.m.done.count c ≤ w.recv c - w.m.done.count c
        have := h c
        omega)⟩
  · intro w2 h2
    have hsecond : ∀ c, w.m.done.count c ≤ w.recv c - w.m.done.count c := by
      by_contra hcon
      push_neg at hcon
      obtain ⟨es, hes, _⟩ := Destroy_blocked
        { w with
          recv := fun c => w.recv c - w.m.done.count c
          events := w.events ++ w.m.done.map Event.send ++ [Event.Close w.m.pipe] } hcon
      rw [hes] at h2
      cases h2
    have hw2 := Destroy_returned
      { w with
        recv := fun c => w.recv c - w.m.done.count c
        events := w.events ++ w.m.done.map Event.send ++ [Event.Close w.m.pipe] } hsecond
    rw [h2] at hw2
    simp only [Result.returned.injEq] at hw2
    subst hw2
    refine ⟨by simp, ?_, ?_⟩
    · intro c
      have := sentTo_map_send c w.m.done
      simp only [sentTo] at this
      simp only [sentTo, List.countP_append, this, List.countP_cons, List.countP_nil]
      simp only [Nat.add_assoc, ite_false, Nat.zero_add, Nat.add_zero, Bool.false_eq_true]
    · simp [closes, List.countP_append, List.countP_map, Function.comp_def]
  · intro hd
    simp [Destroy, sendAll, hd]
  · intro c cs hd hc
    have hcount : w.m.done.count c = 1 := by
      have h := hfirst c
      have hpos : 0 < w.m.done.count c := by
        rw [hd]
        simp
      omega
    rw [hd] at hcount
    have hz : w.recv c - List.count c (c :: cs) = 0 := by omega
    simp only [Destroy, hd, sendAll, hz, if_true]

/-- C8, witness: a first Destroy on a connection with one waiter, which receives
once. -/
theorem Destroy_twice_witness :
    ∃ w1, Destroy waiting = Result.returned w1 ∧
      w1.events = [Event.send 0, Event.Close 0] ∧ w1.recv 0 = 0 ∧
      Destroy w1 = Result.blocked w1.events := by
  refine ⟨_, rfl, ?_⟩
  have h := Destroy_twice waiting _ (rfl : Destroy waiting = Result.returned _)
  exact ⟨rfl, rfl, h.2.2.2.2 0 [] rfl rfl⟩

/-- C8, counterexample: the second Destroy is not a safe no-op.  On a new
connection without waiters the first call closes the transport and the second
call closes it again.  On a connection with one waiter, which receives once, the
first call returns and the second call blocks for ever at the send. -/
theorem Destroy_twice_differs :
    (∃ w1 w2, Destroy fresh = Result.returned w1 ∧ w1.events = [Event.Close 0] ∧
      Destroy w1 = Result.returned w2 ∧ w2.events = [Event.Close 0, Event.Close 0] ∧
      closes w2.events = 2) ∧
    (∃ w1, Destroy waiting = Result.returned w1 ∧
      w1.events = [Event.send 0, Event.Close 0] ∧
      Destroy w1 = Result.blocked [Event.send 0, Event.Close 0]) := by
  exact ⟨⟨_, _, rfl, rfl, rfl, rfl, rfl⟩, ⟨_, rfl, rfl, rfl⟩⟩

/-- C9.  WriteMessage returns an error exactly when the encoder fails; then the
state is unchanged and nothing is written.  Otherwise it is WriteBytes on the
encoded bytes followed by one Debug line: one deadline call and one Write of
exactly these bytes, and the result is nil whatever the transport write returned. -/
theorem WriteMessage_spec (marshal : MessageSend → Except String Bytes) (w : World)
    (ms : MessageSend) (wr : Nat × Option String) :
    ((WriteMessage marshal w ms wr).2 ≠ none ↔ ∃ err, marshal ms = Except.error err) ∧
    (∀ err, marshal ms = Except.error err →
      WriteMessage marshal w ms wr = (w, some ("json.Marshal: " ++ err))) ∧
    (∀ body, marshal ms = Except.ok body →
      WriteMessage marshal w ms wr =
        ({ WriteBytes w body wr with
            events := (WriteBytes w body wr).events ++
              [Event.Debug w.m.log ("c.SendMessage: " ++ ms.Group ++ "." ++ ms.Name)] }, none) ∧
      WriteBytes w body wr =
        { w with
          events := w.events ++
            [Event.SetWriteDeadline w.m.pipe 50, Event.Write w.m.pipe body wr.1 wr.2] }) := by
  refine ⟨?_, ?_, ?_⟩
  · cases hm : marshal ms <;> simp [WriteMessage, hm]
  · intro err hm
    simp [WriteMessage, hm]
  · intro body hm
    simp [WriteMessage, WriteBytes, hm]

/-- C10, as amended.  For a message with a non-empty group and a non-empty name:
when the group resolves and the name resolves within it, the routing step
launches exactly that handler, once, with the current logger and the body of the
message, and does nothing else. -/
theorem dispatch_launches (w : World) (msg : MessageRecv) (strct : MessageStruct)
    (callback : Handler) (hgroup : msg.Group.length > 0) (hname : msg.Name.length > 0)
    (hg : w.m.cmd.lookup msg.Group = some strct)
    (hn : mapaccess w.heap strct msg.Name = some callback) :
    dispatch w msg = { w with events := w.events ++ [Event.go callback w.m.log msg.Body] } := by
  simp [dispatch, hgroup, hname, hg, hn]

/-- C10, witness: the message auth.login on a connection that serves auth. -/
theorem dispatch_launches_witness :
    ("auth".length > 0 ∧ "login".length > 0 ∧ served.m.cmd.lookup "auth" = some (some 0) ∧
      mapaccess served.heap (some 0) "login" = some handlerA) ∧
    dispatch served { Group := "auth", Name := "login", Body := [7] } =
      { served with events := served.events ++ [Event.go handlerA served.m.log [7]] } :=
  ⟨⟨by decide, by decide, rfl, rfl⟩,
    dispatch_launches served { Group := "auth", Name := "login", Body := [7] } (some 0) handlerA
      (by decide) (by decide) rfl rfl⟩

/-- C10, counterexample: the group misc holds a handler under the empty name and
ExecuteCommand calls it, but the routing step launches nothing for a message
with that group and the empty name. -/
theorem dispatch_empty_name_not_launched :
    AddCommand fresh "auth" (some 0) >>= (fun w1 => AddCommand w1 "misc" (some 2)) = Except.ok served ∧
    "misc".length > 0 ∧
    resolve served "misc" "" = some handlerA ∧
    (ExecuteCommand served "misc" "" [7]).1.events = [Event.call handlerA served.m.log [7]] ∧
    dispatch served { Group := "misc", Name := "", Body := [7] } = served ∧
    served.events = [] := by
  refine ⟨rfl, by decide, rfl, rfl, rfl, rfl⟩

/-- Zero bytes appended to a slice are trimmed away with the rest. -/
theorem Trim_append_zeros (data : Bytes) (k : Nat) :
    Trim (data ++ List.replicate k 0) [0] = Trim data [0] := by
  induction k with
  | zero => simp
  | succ k ih =>
    rw [List.replicate_succ', ← List.append_assoc]
    unfold Trim at ih ⊢
    rw [List.rdropWhile_concat_pos _ _ _ (by simp), ih]

/-- A slice that neither starts nor ends with a zero byte is left as it is. -/
theorem Trim_eq_self (data : Bytes) (hh : data.head? ≠ some 0) (hl : data.getLast? ≠ some 0) :
    Trim data [0] = data := by
  unfold Trim
  have h1 : (data.rdropWhile fun b => decide (b ∈ [0])) = data := by
    rw [List.rdropWhile_eq_self_iff]
    intro hne
    rw [List.getLast?_eq_getLast _ hne] at hl
    simpa using hl
  rw [h1, List.dropWhile_eq_self_iff]
  intro hpos
  cases data with
  | nil => simp at hpos
  | cons a t => simpa using hh

/-- The routing step writes neither the connection nor the heap. -/
theorem dispatch_frame (w : World) (msg : MessageRecv) :
    (dispatch w msg).m = w.m ∧ (dispatch w msg).heap = w.heap ∧
      (dispatch w msg).chans = w.chans ∧
      (∀ c, sentTo c (dispatch w msg).events = sentTo c w.events) ∧
      closes (dispatch w msg).events = closes w.events := by
  unfold dispatch
  split_ifs <;> (try split) <;> (try split) <;>
    simp [sentTo, closes, List.countP_append, List.countP_cons]

/-- A round of the read loop on a zero buffer, for a read that delivered
something without an error: the delivered bytes, trimmed, are decoded, a
decoding error is printed, and the message is routed. -/
theorem loopBody_zero_buffer (unmarshal : Bytes → MessageRecv × Option String) (w : World)
    (r : ReadOutcome) (hn : r.data ≠ []) (he : r.err = none) :
    loopBody unmarshal w (List.replicate size 0) r =
      Result.returned
        (dispatch
          (logDecodeError w (unmarshal (Trim r.data [0])).1 (Trim r.data [0])
            (unmarshal (Trim r.data [0])).2)
          (unmarshal (Trim r.data [0])).1, List.replicate size 0) := by
  have hlen : r.data.length ≠ 0 := by simpa using hn
  simp only [loopBody, afterRead, hlen, if_false, List.drop_replicate, Trim_append_zeros, he]

/-- A round of the read loop on a zero buffer, for a read that delivered
something with an error, when Destroy returns: the round goes on from the world
Destroy left as a round without an error does. -/
theorem loopBody_torn_down (unmarshal : Bytes → MessageRecv × Option String) (w w1 : World)
    (r : ReadOutcome) (e : String) (hn : r.data ≠ []) (he : r.err = some e)
    (hd : Destroy w = Result.returned w1) :
    loopBody unmarshal w (List.replicate size 0) r =
      Result.returned
        (dispatch
          (logDecodeError w1 (unmarshal (Trim r.data [0])).1 (Trim r.data [0])
            (unmarshal (Trim r.data [0])).2)
          (unmarshal (Trim r.data [0])).1, List.replicate size 0) := by
  have hlen : r.data.length ≠ 0 := by simpa using hn
  simp only [loopBody, afterRead, hlen, if_false, List.drop_replicate, Trim_append_zeros, he, hd]

/-- A round of the read loop for a read that delivered something with an error,
when Destroy blocks: the round blocks with it. -/
theorem loopBody_stuck (unmarshal : Bytes → MessageRecv × Option String) (w : World)
    (body : Bytes) (r : ReadOutcome) (e : String) (es : List Event) (hn : r.data ≠ [])
    (he : r.err = some e) (hd : Destroy w = Result.blocked es) :
    loopBody unmarshal w body r = Result.blocked es := by
  have hlen : r.data.length ≠ 0 := by simpa using hn
  simp only [loopBody, hlen, if_false, he, hd]

/-- A round of the read loop for a read of zero bytes changes nothing. -/
theorem loopBody_zero_read (unmarshal : Bytes → MessageRecv × Option String) (w : World)
    (body : Bytes) (err : Option String) :
    loopBody unmarshal w body { data := [], err := err } = Result.returned (w, body) := by
  simp [loopBody, afterRead]

/-- A slice whose bytes are all in the cutset 0 is a run of zero bytes. -/
theorem eq_zeros_of_all (l : Bytes) (h : ∀ b ∈ l, b = 0) :
    l = List.replicate l.length 0 := by
  rw [List.eq_replicate_iff]
  exact ⟨rfl, h⟩

/-- A slice is its trimmed middle between a run of zero bytes in front and a
run of zero bytes behind. -/
theorem Trim_decompose (body : Bytes) :
    ∃ k j, body = List.replicate k 0 ++ Trim body [0] ++ List.replicate j 0 := by
  have h1 : body = (body.rdropWhile fun b => decide (b ∈ [0])) ++
      (body.rtakeWhile fun b => decide (b ∈ [0])) := by
    have := List.takeWhile_append_dropWhile (fun b => decide (b ∈ [0])) body.reverse
    have h := congrArg List.reverse this
    rw [List.reverse_append, List.reverse_reverse] at h
    exact h.symm
  have h2 : (body.rdropWhile fun b => decide (b ∈ [0])) =
      ((body.rdropWhile fun b => decide (b ∈ [0])).takeWhile fun b => decide (b ∈ [0])) ++
        Trim body [0] :=
    (List.takeWhile_append_dropWhile _ _).symm
  have z1 := eq_zeros_of_all
    ((body.rdropWhile fun b => decide (b ∈ [0])).takeWhile fun b => decide (b ∈ [0]))
    (fun b hb => by
      have := List.mem_takeWhile_imp hb
      simpa using this)
  have z2 := eq_zeros_of_all (body.rtakeWhile fun b => decide (b ∈ [0]))
    (fun b hb => by
      unfold List.rtakeWhile at hb
      have := List.mem_takeWhile_imp (List.mem_reverse.mp hb)
      simpa using this)
  refine ⟨((body.rdropWhile fun b => decide (b ∈ [0])).takeWhile
    fun b => decide (b ∈ [0])).length, (body.rtakeWhile fun b => decide (b ∈ [0])).length, ?_⟩
  rw [← z1, ← h2, ← z2]
  exact h1

/-- The trimmed slice does not start with a zero byte. -/
theorem Trim_head (body : Bytes) : (Trim body [0]).head? ≠ some 0 := by
  unfold Trim
  have h := List.head?_dropWhile_not (fun b => decide (b ∈ [0]))
    (body.rdropWhile fun b => decide (b ∈ [0]))
  intro hc
  rw [hc] at h
  simp at h

/-- The trimmed slice does not end with a zero byte. -/
theorem Trim_getLast (body : Bytes) : (Trim body [0]).getLast? ≠ some 0 := by
  intro hc
  have hne : Trim body [0] ≠ [] := by
    intro h
    rw [h] at hc
    simp at hc
  have hsplit := List.takeWhile_append_dropWhile (fun b => decide (b ∈ [0]))
    (body.rdropWhile fun b => decide (b ∈ [0]))
  have hlast : (body.rdropWhile fun b => decide (b ∈ [0])).getLast? = some 0 := by
    unfold Trim at hne hc
    rw [← hsplit, List.getLast?_append_of_ne_nil _ hne]
    exact hc
  have hne2 : (body.rdropWhile fun b => decide (b ∈ [0])) ≠ [] := by
    intro h
    rw [h] at hlast
    simp at hlast
  have hnot := List.rdropWhile_last_not (fun b => decide (b ∈ [0])) body hne2
  rw [List.getLast?_eq_getLast _ hne2] at hlast
  simp only [Option.some.injEq] at hlast
  rw [hlast] at hnot
  simp at hnot

/-- C11, at the failing input: a read that returns no byte and the error EOF,
on a connection with one waiter, which is receiving.  The round ends at
continue: the world is unchanged, so there is no send on the registered channel
and no Close, although a call of Destroy would have returned with both. -/
theorem loopBody_error_without_bytes (unmarshal : Bytes → MessageRecv × Option String) :
    loopBody unmarshal waiting (List.replicate size 0) { data := [], err := some "EOF" } =
      Result.returned (waiting, List.replicate size 0) ∧
    waiting.m.done = [0] ∧ sentTo 0 waiting.events = 0 ∧ closes waiting.events = 0 ∧
    ∃ w1, Destroy waiting = Result.returned w1 ∧
      w1.events = [Event.send 0, Event.Close 0] := by
  refine ⟨loopBody_zero_read _ _ _ _, rfl, rfl, rfl, _, rfl, rfl⟩

/-- C14, as amended.  What the read loop hands to the decoder is the buffer with
its leading and its trailing zero bytes removed and nothing else changed: the
buffer is a run of zero bytes, then the trimmed slice, then a run of zero bytes;
the trimmed slice neither starts nor ends with a zero byte; and a round of the
loop depends on the decoder only through its value on the trimmed buffer. -/
theorem Trim_both_ends (body : Bytes) :
    (∃ k j, body = List.replicate k 0 ++ Trim body [0] ++ List.replicate j 0) ∧
    (Trim body [0]).head? ≠ some 0 ∧ (Trim body [0]).getLast? ≠ some 0 ∧
    (∀ (u1 u2 : Bytes → MessageRecv × Option String) (w : World) (r : ReadOutcome),
      afterRead (List.replicate size 0) r.data = body →
      u1 (Trim body [0]) = u2 (Trim body [0]) →
      loopBody u1 w (List.replicate size 0) r = loopBody u2 w (List.replicate size 0) r) := by
  refine ⟨Trim_decompose body, Trim_head body, Trim_getLast body, ?_⟩
  intro u1 u2 w r hb hu
  subst hb
  simp only [loopBody, hu]

/-- C14, counterexample: a buffer of 8192 bytes that starts with a zero byte.
With the trailing zero bytes removed it is 0, 123, 125, but the decoder is
handed 123, 125: the leading zero byte is removed as well. -/
theorem Trim_leading_zero :
    leadingZero.length = size ∧
    (leadingZero.rdropWhile fun b => decide (b = 0)) = [0, 123, 125] ∧
    Trim leadingZero [0] = [123, 125] := by
  refine ⟨by rw [leadingZero, List.length_append, List.length_replicate]; rfl, ?_, ?_⟩
  · have h : ∀ k : Nat, (([0, 123, 125] ++ List.replicate k 0).rdropWhile
        fun b => decide (b = 0)) = [0, 123, 125] := by
      intro k
      induction k with
      | zero => decide
      | succ k ih =>
        rw [List.replicate_succ', ← List.append_assoc,
          List.rdropWhile_concat_pos _ _ _ (by simp), ih]
    exact h _
  · unfold leadingZero
    rw [Trim_append_zeros]
    decide

/-- C15.  Routing misses of the routing step, for every registry and decoded
message: with an empty group the world is unchanged (no lookup, no launch, no
log); with a registered group and a name that is not registered in it the world
is unchanged (no launch, no warning); with a non-empty group that is not
registered the only effect is one Warn on the current logger that names the
group and the name.  In every case the connection, the heap and the numbers of
sends and of Close calls are as before. -/
theorem dispatch_misses (w : World) (msg : MessageRecv) :
    (msg.Group = "" → dispatch w msg = w) ∧
    (∀ strct, w.m.cmd.lookup msg.Group = some strct →
      mapaccess w.heap strct msg.Name = none → dispatch w msg = w) ∧
    (msg.Group ≠ "" → w.m.cmd.lookup msg.Group = none →
      dispatch w msg =
        { w with
          events := w.events ++
            [Event.Warn w.m.log ("!c.cmd.(bool): " ++ msg.Group ++ "." ++ msg.Name)] }) ∧
    ((dispatch w msg).m = w.m ∧ (dispatch w msg).heap = w.heap ∧
      (∀ c, sentTo c (dispatch w msg).events = sentTo c w.events) ∧
      closes (dispatch w msg).events = closes w.events) := by
  refine ⟨?_, ?_, ?_, ?_⟩
  · intro hg
    simp [dispatch, hg]
  · intro strct hl hn
    simp only [dispatch, hl, hn]
    split_ifs <;> rfl
  · intro hg hl
    have hpos : msg.Group.length > 0 := by
      rcases hm : msg.Group with ⟨cs⟩
      cases cs with
      | nil => exact absurd hm hg
      | cons a t => simp [String.length]
    simp [dispatch, hpos, hl]
  · obtain ⟨h1, h2, _, h4, h5⟩ := dispatch_frame w msg
    exact ⟨h1, h2, h4, h5⟩

/-- C17.  RemoveCommandsByNames never unregisters the group: when G is
registered, after RemoveCommandsByNames(G, names...) the group G still holds the
same map reference; for a removed name n, ExecuteCommand(G, n, body) returns the
name-not-found error, not the group-not-found error, and calls nothing; and the
routing step on a message for (G, n) changes nothing, so it logs no warning. -/
theorem RemoveCommandsByNames_keeps_group (w : World) (G : String) (names : List String)
    (p : MessageStruct) (n : String) (body : Bytes)
    (hG : w.m.cmd.lookup G = some p) (hn : n ∈ names) :
    (RemoveCommandsByNames w G names).m.cmd.lookup G = some p ∧
    ExecuteCommand (RemoveCommandsByNames w G names) G n body =
      (RemoveCommandsByNames w G names, some errName) ∧
    errName ≠ errGroup ∧
    dispatch (RemoveCommandsByNames w G names) { Group := G, Name := n, Body := body } =
      RemoveCommandsByNames w G names := by
  have hm := RemoveCommandsByNames_m w G names
  have hl : (RemoveCommandsByNames w G names).m.cmd.lookup G = some p := by rw [hm, hG]
  have hr : mapaccess (RemoveCommandsByNames w G names).heap p n = none := by
    rw [RemoveCommandsByNames_heap w G names p hG p n]
    simp [hn]
  refine ⟨hl, ?_, by decide, ?_⟩
  · simp [ExecuteCommand, hl, hr]
  · simp only [dispatch, hl, hr]
    split_ifs <;> rfl

/-- C17, witness: both names of the group auth are removed; the group stays. -/
theorem RemoveCommandsByNames_keeps_group_witness :
    (served.m.cmd.lookup "auth" = some (some 0) ∧ "login" ∈ ["login", "logout"]) ∧
    ((RemoveCommandsByNames served "auth" ["login", "logout"]).m.cmd.lookup "auth" = some (some 0) ∧
    ExecuteCommand (RemoveCommandsByNames served "auth" ["login", "logout"]) "auth" "login" [7] =
      (RemoveCommandsByNames served "auth" ["login", "logout"], some errName) ∧
    errName ≠ errGroup ∧
    dispatch (RemoveCommandsByNames served "auth" ["login", "logout"])
        { Group := "auth", Name := "login", Body := [7] } =
      RemoveCommandsByNames served "auth" ["login", "logout"]) :=
  ⟨⟨rfl, by decide⟩,
    RemoveCommandsByNames_keeps_group served "auth" ["login", "logout"] (some 0) "login" [7]
      rfl (by decide)⟩

/-- Printing a decoding error writes neither the connection nor the heap, and
is no send, no Close and no handler launch. -/
theorem logDecodeError_frame (w : World) (msg : MessageRecv) (bts : Bytes) (err : Option String) :
    (logDecodeError w msg bts err).m = w.m ∧ (logDecodeError w msg bts err).heap = w.heap ∧
      (∀ c, sentTo c (logDecodeError w msg bts err).events = sentTo c w.events) ∧
      closes (logDecodeError w msg bts err).events = closes w.events ∧
      invocations (logDecodeError w msg bts err).events = invocations w.events := by
  cases err <;>
    simp [logDecodeError, sentTo, closes, invocations, List.countP_append, List.countP_cons]

/-- The routing step launches nothing for a message with an empty group or an
empty name. -/
theorem dispatch_no_launch (w : World) (msg : MessageRecv)
    (h : msg.Group = "" ∨ msg.Name = "") :
    invocations (dispatch w msg).events = invocations w.events := by
  unfold dispatch
  by_cases hg : msg.Group.length > 0
  · have hname : msg.Name = "" := by
      rcases h with h | h
      · rw [h] at hg
        simp at hg
      · exact h
    simp only [hg, if_true, hname]
    split <;> simp [invocations, List.countP_append, List.countP_cons]
  · simp [hg]

/-- The routing step on a message with a non-empty group and name that resolve
appends the launch of the resolved handler and nothing else. -/
theorem dispatch_of_resolved (w : World) (msg : MessageRecv) (strct : MessageStruct)
    (cb : Handler) (hg : msg.Group.length > 0) (hn : msg.Name.length > 0)
    (hl : w.m.cmd.lookup msg.Group = some strct)
    (hm : mapaccess w.heap strct msg.Name = some cb) :
    dispatch w msg = { w with events := w.events ++ [Event.go cb w.m.log msg.Body] } := by
  simp [dispatch, hg, hn, hl, hm]

/-- C12, as amended.  Let a read deliver bytes without error and let the
decoder fail on the trimmed bytes, leaving the message msg.  The round prints
the error and routes msg: the connection is not torn down (no send, no Close),
the connection and the heap are unchanged, and no handler is launched when the
decoder left the group or the name empty.  The loop goes on with a zero buffer:
a following read whose bytes decode to msg2 is routed as usual, and launches the
handler the registry of w holds for a non-empty group and name of msg2. -/
theorem loopBody_decode_error (u : Bytes → MessageRecv × Option String) (w : World)
    (r1 r2 : ReadOutcome) (msg msg2 : MessageRecv) (e : String)
    (h1 : r1.data ≠ []) (he1 : r1.err = none) (hd1 : u (Trim r1.data [0]) = (msg, some e))
    (h2 : r2.data ≠ []) (he2 : r2.err = none) (hd2 : u (Trim r2.data [0]) = (msg2, none)) :
    loopBody u w (List.replicate size 0) r1 =
      Result.returned
        (dispatch (logDecodeError w msg (Trim r1.data [0]) (some e)) msg,
          List.replicate size 0) ∧
    ((dispatch (logDecodeError w msg (Trim r1.data [0]) (some e)) msg).m = w.m ∧
      (dispatch (logDecodeError w msg (Trim r1.data [0]) (some e)) msg).heap = w.heap ∧
      (∀ c, sentTo c (dispatch (logDecodeError w msg (Trim r1.data [0]) (some e)) msg).events =
        sentTo c w.events) ∧
      closes (dispatch (logDecodeError w msg (Trim r1.data [0]) (some e)) msg).events =
        closes w.events) ∧
    (msg.Group = "" ∨ msg.Name = "" →
      invocations (dispatch (logDecodeError w msg (Trim r1.data [0]) (some e)) msg).events =
        invocations w.events) ∧
    readLoop u w (List.replicate size 0) [r1, r2] =
      Result.returned
        (dispatch (dispatch (logDecodeError w msg (Trim r1.data [0]) (some e)) msg) msg2,
          List.replicate size 0) ∧
    (∀ strct cb, msg2.Group.length > 0 → msg2.Name.length > 0 →
      w.m.cmd.lookup msg2.Group = some strct → mapaccess w.heap strct msg2.Name = some cb →
      (dispatch (dispatch (logDecodeError w msg (Trim r1.data [0]) (some e)) msg) msg2).events =
        (dispatch (logDecodeError w msg (Trim r1.data [0]) (some e)) msg).events ++
          [Event.go cb w.m.log msg2.Body]) := by
  have hb1 : loopBody u w (List.replicate size 0) r1 =
      Result.returned
        (dispatch (logDecodeError w msg (Trim r1.data [0]) (some e)) msg,
          List.replicate size 0) := by
    rw [loopBody_zero_buffer u w r1 h1 he1, hd1]
  obtain ⟨lm, lh, ls, lc, li⟩ := logDecodeError_frame w msg (Trim r1.data [0]) (some e)
  obtain ⟨dm, dh, _, ds, dc⟩ :=
    dispatch_frame (logDecodeError w msg (Trim r1.data [0]) (some e)) msg
  refine ⟨hb1, ⟨dm.trans lm, dh.trans lh, fun c => (ds c).trans (ls c), dc.trans lc⟩, ?_, ?_, ?_⟩
  · intro hmsg
    exact (dispatch_no_launch _ msg hmsg).trans li
  · simp only [readLoop, hb1]
    rw [loopBody_zero_buffer u _ r2 h2 he2, hd2]
    rfl
  · intro strct cb hg hn hl hm
    rw [dispatch_of_resolved _ msg2 strct cb hg hn
      (by rw [dm.trans lm]; exact hl) (by rw [dh.trans lh]; exact hm), dm.trans lm]

/-- C12, witness: text that is not JSON, then the envelope auth.login, on a
connection that serves auth. -/
theorem loopBody_decode_error_witness :
    (garbageBytes ≠ [] ∧ (none : Option String) = none ∧
      decoder (Trim garbageBytes [0]) =
        ({ Group := "", Name := "", Body := [] }, some "invalid character") ∧
      loginBytes ≠ [] ∧ (none : Option String) = none ∧
      decoder (Trim loginBytes [0]) =
        ({ Group := "auth", Name := "login", Body := userBytes }, none)) ∧
    ∃ w1 w2,
      loopBody decoder served (List.replicate size 0) { data := garbageBytes, err := none } =
        Result.returned (w1, List.replicate size 0) ∧
      readLoop decoder served (List.replicate size 0)
          [{ data := garbageBytes, err := none }, { data := loginBytes, err := none }] =
        Result.returned (w2, List.replicate size 0) ∧
      w2.events = w1.events ++ [Event.go handlerA served.m.log userBytes] ∧
      invocations w1.events = invocations served.events :=
  have h := loopBody_decode_error decoder served { data := garbageBytes, err := none }
    { data := loginBytes, err := none } { Group := "", Name := "", Body := [] }
    { Group := "auth", Name := "login", Body := userBytes } "invalid character"
    (by decide) rfl (by decide) (by decide) rfl (by decide)
  ⟨⟨by decide, rfl, by decide, by decide, rfl, by decide⟩,
    _, _, h.1, h.2.2.2.1,
    h.2.2.2.2 (some 0) handlerA (by decide) (by decide) rfl rfl, h.2.2.1 (Or.inl rfl)⟩

/-- C12, counterexample: the bytes name auth.login and then give name again as a
number.  The decoder fails with a type error and leaves group and name filled
in; the round prints the error and launches the handler of auth.login. -/
theorem loopBody_decode_error_launches :
    (decoder (Trim (afterRead (List.replicate size 0) mistypedBytes) [0])).2 ≠ none ∧
    invocations served.events = 0 ∧
    ∃ w1,
      loopBody decoder served (List.replicate size 0) { data := mistypedBytes, err := none } =
        Result.returned (w1, List.replicate size 0) ∧
      w1.events =
        (logDecodeError served { Group := "auth", Name := "login", Body := [] } mistypedBytes
            (decoder mistypedBytes).2).events ++
          [Event.go handlerA served.m.log []] ∧
      invocations w1.events = 1 := by
  have ht : Trim mistypedBytes [0] = mistypedBytes := by decide
  have hd : decoder mistypedBytes =
      ({ Group := "auth", Name := "login", Body := [] },
        some "json: cannot unmarshal number into Go struct field MessageRecv.name of type string") := by
    decide
  have hb := loopBody_zero_buffer decoder served { data := mistypedBytes, err := none }
    (by decide) rfl
  simp only [ht, hd] at hb
  refine ⟨?_, rfl, _, hb, ?_, rfl⟩
  · simp only [afterRead, List.drop_replicate, Trim_append_zeros, ht, hd]
    simp
  · rw [hd]
    rfl

/-- C18, as amended.  A read that delivers bytes together with an error, on a
connection whose registered channels are all received from: Destroy returns,
with its sends and its Close made, and the round then goes on as the round the
same bytes get without an error goes on from the world Destroy left, so the
buffer is still trimmed, decoded and routed; when the bytes decode to a message
with a non-empty group and name that resolve, the handler is launched after the
Close.  A read of zero bytes without an error leaves the world and the buffer as
they were. -/
theorem loopBody_read_error (u : Bytes → MessageRecv × Option String) (w : World)
    (r : ReadOutcome) (e : String) (hn : r.data ≠ []) (he : r.err = some e)
    (hr : ∀ c, w.m.done.count c ≤ w.recv c) :
    ∃ w1, Destroy w = Result.returned w1 ∧
      w1.events = w.events ++ w.m.done.map Event.send ++ [Event.Close w.m.pipe] ∧
      loopBody u w (List.replicate size 0) r =
        loopBody u w1 (List.replicate size 0) { data := r.data, err := none } ∧
      loopBody u w (List.replicate size 0) r =
        Result.returned
          (dispatch
            (logDecodeError w1 (u (Trim r.data [0])).1 (Trim r.data [0])
              (u (Trim r.data [0])).2)
            (u (Trim r.data [0])).1, List.replicate size 0) ∧
      (∀ msg strct cb, u (Trim r.data [0]) = (msg, none) →
        msg.Group.length > 0 → msg.Name.length > 0 →
        w.m.cmd.lookup msg.Group = some strct → mapaccess w.heap strct msg.Name = some cb →
        ∃ w2, loopBody u w (List.replicate size 0) r =
            Result.returned (w2, List.replicate size 0) ∧
          w2.events =
            w.events ++ w.m.done.map Event.send ++ [Event.Close w.m.pipe] ++
              [Event.go cb w.m.log msg.Body]) ∧
      (∀ body, loopBody u w body { data := [], err := none } = Result.returned (w, body)) := by
  have hd := Destroy_returned w hr
  have hb := loopBody_torn_down u w _ r e hn he hd
  refine ⟨_, hd, rfl, ?_, hb, ?_, fun body => loopBody_zero_read u w body none⟩
  · rw [hb, loopBody_zero_buffer u _ { data := r.data, err := none } hn rfl]
  · intro msg strct cb hdec hg hname hl hm
    rw [hb, hdec]
    simp only [logDecodeError]
    refine ⟨_, rfl, ?_⟩
    rw [dispatch_of_resolved
      { w with
        recv := fun c => w.recv c - w.m.done.count c
        events := w.events ++ w.m.done.map Event.send ++ [Event.Close w.m.pipe] }
      msg strct cb hg hname hl hm]

/-- C18, witness: the envelope auth.login arrives together with the error EOF
on a connection that serves auth and has one waiter, which receives. -/
theorem loopBody_read_error_witness :
    (loginBytes ≠ [] ∧ some "EOF" = some "EOF" ∧
      ∀ c, servedWaiting.m.done.count c ≤ servedWaiting.recv c) ∧
    ∃ w2, loopBody decoder servedWaiting (List.replicate size 0)
        { data := loginBytes, err := some "EOF" } =
          Result.returned (w2, List.replicate size 0) ∧
      w2.events =
        servedWaiting.events ++ servedWaiting.m.done.map Event.send ++
          [Event.Close servedWaiting.m.pipe] ++
            [Event.go handlerA servedWaiting.m.log userBytes] ∧
      servedWaiting.events ++ servedWaiting.m.done.map Event.send ++
          [Event.Close servedWaiting.m.pipe] = [Event.send 0, Event.Close 0] := by
  have hcount : ∀ c, servedWaiting.m.done.count c ≤ servedWaiting.recv c := by
    intro c
    show List.count c [0] ≤ 1
    by_cases hc : c = 0
    · subst hc; simp
    · simp [List.count_cons_of_ne hc]
  obtain ⟨w1, _, _, _, _, hlaunch, _⟩ :=
    loopBody_read_error decoder servedWaiting { data := loginBytes, err := some "EOF" } "EOF"
      (by decide) rfl hcount
  obtain ⟨w2, h2, hev⟩ := hlaunch { Group := "auth", Name := "login", Body := userBytes }
    (some 0) handlerA (by decide) (by decide) (by decide) rfl rfl
  exact ⟨⟨by decide, rfl, hcount⟩, w2, h2, hev, rfl⟩

/-- C18, counterexample.  First, the envelope of the group misc with the empty
name arrives together with the error EOF: a handler is registered under misc for
the empty name, the round tears the connection down, and no handler is launched.
Second, the envelope auth.login arrives together with the error EOF on a
connection whose one waiter never receives: a handler is registered for
auth.login, Destroy blocks at its send, and the round never gets to trim, decode
or route. -/
theorem loopBody_read_error_empty_name :
    (decoder (Trim (afterRead (List.replicate size 0) emptyNameBytes) [0]) =
        ({ Group := "misc", Name := "", Body := [] }, none) ∧
      resolve servedWaiting "misc" "" = some handlerA ∧
      ∃ w2, loopBody decoder servedWaiting (List.replicate size 0)
          { data := emptyNameBytes, err := some "EOF" } =
            Result.returned (w2, List.replicate size 0) ∧
        w2.events = [Event.send 0, Event.Close 0]) ∧
    (resolve servedDeaf "auth" "login" = some handlerA ∧
      loopBody decoder servedDeaf (List.replicate size 0)
        { data := loginBytes, err := some "EOF" } = Result.blocked []) := by
  have ht : Trim emptyNameBytes [0] = emptyNameBytes := by decide
  have hd : decoder emptyNameBytes = ({ Group := "misc", Name := "", Body := [] }, none) := by
    decide
  refine ⟨⟨?_, rfl, ?_⟩, rfl, ?_⟩
  · simp only [afterRead, List.drop_replicate, Trim_append_zeros, ht, hd]
  · have hb := loopBody_torn_down decoder servedWaiting _
      { data := emptyNameBytes, err := some "EOF" } "EOF" (by decide) rfl
      (rfl : Destroy servedWaiting = Result.returned _)
    simp only [ht, hd] at hb
    exact ⟨_, hb, rfl⟩
  · exact loopBody_stuck decoder servedDeaf _ { data := loginBytes, err := some "EOF" } "EOF" []
      (by decide) rfl rfl

/-- AddCommand for groups that are not registered yet, pairwise distinct: every
call returns, only the registry map is written, and afterwards a group holds a
reference exactly when a call gave it to the group, or the group held it before
and no call was for the group. -/
theorem AddCommands_new (cmds : List (String × MessageStruct)) :
    ∀ w : World, (cmds.map Prod.fst).Nodup → (∀ c ∈ cmds, w.m.cmd.lookup c.1 = none) →
      ∃ w1, AddCommands w cmds = Except.ok w1 ∧ w1.heap = w.heap ∧ w1.events = w.events ∧
        w1.chans = w.chans ∧ w1.m.log = w.m.log ∧ w1.m.done = w.m.done ∧
        w1.m.pipe = w.m.pipe ∧ w1.m.cl = w.m.cl ∧
        ∀ g v, w1.m.cmd.lookup g = some v ↔
          ((g, v) ∈ cmds ∨ ((∀ c ∈ cmds, c.1 ≠ g) ∧ w.m.cmd.lookup g = some v)) := by
  induction cmds with
  | nil =>
    intro w _ _
    exact ⟨w, rfl, rfl, rfl, rfl, rfl, rfl, rfl, rfl, by simp⟩
  | cons c cs ih =>
    intro w hnd hnew
    have hc : w.m.cmd.lookup c.1 = none := hnew c (List.mem_cons_self _ _)
    rw [List.map_cons, List.nodup_cons] at hnd
    obtain ⟨hnotin, hnd'⟩ := hnd
    have hstep : AddCommand w c.1 c.2 =
        Except.ok { w with m := { w.m with cmd := w.m.cmd.insert c.1 c.2 } } := by
      simp [AddCommand, hc]
    have hne : ∀ c' ∈ cs, c'.1 ≠ c.1 := by
      intro c' hc' heq
      exact hnotin (heq ▸ List.mem_map_of_mem Prod.fst hc')
    obtain ⟨w1, hrun, hheap, hev, hch, hlog, hdone, hpipe, hcl, hlook⟩ :=
      ih { w with m := { w.m with cmd := w.m.cmd.insert c.1 c.2 } } hnd' (by
        intro c' hc'
        show (w.m.cmd.insert c.1 c.2).lookup c'.1 = none
        rw [AList.lookup_insert_ne (hne c' hc')]
        exact hnew c' (List.mem_cons_of_mem _ hc'))
    refine ⟨w1, ?_, hheap, hev, hch, hlog, hdone, hpipe, hcl, ?_⟩
    · simp only [AddCommands, List.foldlM, hstep, bind, Except.bind]
      exact hrun
    · intro g v
      rw [hlook g v]
      show _ ∨ (_ ∧ (w.m.cmd.insert c.1 c.2).lookup g = some v) ↔ _
      by_cases hg : g = c.1
      · subst hg
        rw [AList.lookup_insert]
        constructor
        · rintro (h | ⟨_, h⟩)
          · exact absurd rfl (hne (c.1, v) h)
          · left
            simp only [Option.some.injEq] at h
            rw [← h]
            exact List.mem_cons_self _ _
        · rintro (h | ⟨h, _⟩)
          · rcases List.mem_cons.mp h with h | h
            · right
              refine ⟨fun c' hc' => hne c' hc', ?_⟩
              rw [← h]
            · exact absurd rfl (hne (c.1, v) h)
          · exact absurd rfl (h c (List.mem_cons_self _ _))
      · rw [AList.lookup_insert_ne hg]
        constructor
        · rintro (h | ⟨h1, h2⟩)
          · exact Or.inl (List.mem_cons_of_mem _ h)
          · right
            refine ⟨?_, h2⟩
            intro c' hc'
            rcases List.mem_cons.mp hc' with h | h
            · rw [h]; exact fun heq => hg heq.symm
            · exact h1 c' h
        · rintro (h | ⟨h1, h2⟩)
          · rcases List.mem_cons.mp h with h | h
            · exact absurd (congrArg Prod.fst h) hg
            · exact Or.inl h
          · exact Or.inr ⟨fun c' hc' => h1 c' (List.mem_cons_of_mem _ hc'), h2⟩

/-- C16.  On an empty registry, AddCommand for pairwise distinct groups in any
two orders: all calls return, and the two resulting registries are the same: the
same heap, the same reference under every group (the entries of the registry map
are the same up to their order, which a Go map does not have), so every pair
(group, name) resolves alike.  No update is lost: afterwards ExecuteCommand(Gi,
n, body), for every name n that Ai holds, calls the handler Ai holds for n, once,
and returns its result. -/
theorem AddCommands_any_order (w : World) (cmds cmds' : List (String × MessageStruct))
    (hempty : w.m.cmd = ∅) (hnd : (cmds.map Prod.fst).Nodup) (hperm : cmds.Perm cmds') :
    ∃ w1 w2, AddCommands w cmds = Except.ok w1 ∧ AddCommands w cmds' = Except.ok w2 ∧
      w1.heap = w2.heap ∧ (∀ g, w1.m.cmd.lookup g = w2.m.cmd.lookup g) ∧
      w1.m.cmd.entries.Perm w2.m.cmd.entries ∧
      (∀ g n, resolve w1 g n = resolve w2 g n) ∧
      (∀ c ∈ cmds, ∀ n h body, mapaccess w.heap c.2 n = some h →
        (ExecuteCommand w2 c.1 n body).2 = h w2.m.log body ∧
        (ExecuteCommand w2 c.1 n body).1.events = w2.events ++ [Event.call h w2.m.log body] ∧
        (ExecuteCommand w1 c.1 n body).2 = h w1.m.log body ∧
        (ExecuteCommand w1 c.1 n body).1.events =
          w1.events ++ [Event.call h w1.m.log body]) := by
  have hnone : ∀ g, w.m.cmd.lookup g = none := by
    intro g
    rw [hempty]
    exact AList.lookup_empty g
  have hnd' : (cmds'.map Prod.fst).Nodup := (hperm.map Prod.fst).nodup_iff.mp hnd
  obtain ⟨w1, hr1, hheap1, _, _, _, _, _, _, hl1⟩ :=
    AddCommands_new cmds w hnd (fun c _ => hnone c.1)
  obtain ⟨w2, hr2, hheap2, _, _, _, _, _, _, hl2⟩ :=
    AddCommands_new cmds' w hnd' (fun c _ => hnone c.1)
  have hmem1 : ∀ g v, w1.m.cmd.lookup g = some v ↔ (g, v) ∈ cmds := by
    intro g v
    rw [hl1 g v]
    simp [hnone g]
  have hmem2 : ∀ g v, w2.m.cmd.lookup g = some v ↔ (g, v) ∈ cmds := by
    intro g v
    rw [hl2 g v, hperm.mem_iff]
    simp [hnone g]
  have hsame : ∀ g, w1.m.cmd.lookup g = w2.m.cmd.lookup g := by
    intro g
    apply Option.ext
    intro v
    simp only [Option.mem_def]
    rw [hmem1, hmem2]
  refine ⟨w1, w2, hr1, hr2, hheap1.trans hheap2.symm, hsame, ?_, ?_, ?_⟩
  · apply List.lookup_ext w1.m.cmd.nodupKeys w2.m.cmd.nodupKeys
    intro x y
    exact Option.ext_iff.mp (hsame x) y
  · intro g n
    simp only [resolve, hsame g, hheap1, hheap2]
  · intro c hc n h body hh
    have e1 : w1.m.cmd.lookup c.1 = some c.2 := (hmem1 c.1 c.2).mpr hc
    have e2 : w2.m.cmd.lookup c.1 = some c.2 := (hmem2 c.1 c.2).mpr hc
    have a1 : mapaccess w1.heap c.2 n = some h := by rw [hheap1]; exact hh
    have a2 : mapaccess w2.heap c.2 n = some h := by rw [hheap2]; exact hh
    simp [ExecuteCommand, e1, e2, a1, a2]

/-- C16, witness: the groups auth, chat and misc, registered in two orders on a
new connection. -/
theorem AddCommands_any_order_witness :
    (fresh.m.cmd = ∅ ∧
      ([("auth", some 0), ("chat", some 1), ("misc", some 2)].map Prod.fst).Nodup ∧
      [("auth", some 0), ("chat", some 1), ("misc", some 2)].Perm
        [("misc", some 2), ("auth", some 0), ("chat", some 1)]) ∧
    ∃ w1 w2,
      AddCommands fresh [("auth", some 0), ("chat", some 1), ("misc", some 2)] = Except.ok w1 ∧
      AddCommands fresh [("misc", some 2), ("auth", some 0), ("chat", some 1)] = Except.ok w2 ∧
      w1.heap = w2.heap ∧ (∀ g, w1.m.cmd.lookup g = w2.m.cmd.lookup g) ∧
      w1.m.cmd.entries.Perm w2.m.cmd.entries ∧
      (∀ g n, resolve w1 g n = resolve w2 g n) ∧
      (∀ c ∈ [("auth", some 0), ("chat", some 1), ("misc", some 2)],
        ∀ n h body, mapaccess fresh.heap c.2 n = some h →
        (ExecuteCommand w2 c.1 n body).2 = h w2.m.log body ∧
        (ExecuteCommand w2 c.1 n body).1.events = w2.events ++ [Event.call h w2.m.log body] ∧
        (ExecuteCommand w1 c.1 n body).2 = h w1.m.log body ∧
        (ExecuteCommand w1 c.1 n body).1.events =
          w1.events ++ [Event.call h w1.m.log body]) :=
  ⟨⟨rfl, by decide, by decide⟩,
    AddCommands_any_order fresh [("auth", some 0), ("chat", some 1), ("misc", some 2)]
      [("misc", some 2), ("auth", some 0), ("chat", some 1)] rfl (by decide) (by decide)⟩

/-- C13.  Round trip over a pair.  The encoder and the decoder of the standard
library are parameters, assumed to round-trip an envelope: an encoded message
is JSON object text (it starts and ends with a brace) and decodes, without
error, to the same group and name and to raw body bytes that stand for the same
payload.  For a message with non-empty group and name whose encoding fits in
the receive buffer, and a server that holds a handler for (group, name):
WriteMessage on the client returns nil and writes exactly the encoded bytes to
its end of the pipe, once; read into the zero buffer of the server these bytes
fill the front of the 8192 bytes and the trim gives them back unchanged; and the
round of the server loop launches exactly that handler, once, with the logger of
the server and raw body bytes that stand for the body that was sent. -/
theorem WriteMessage_round_trip (marshal : MessageSend → Except String Bytes)
    (unmarshal : Bytes → MessageRecv × Option String) (decodes : Bytes → Nat → Prop)
    (cw sw : World) (ms : MessageSend) (wr : Nat × Option String) (b : Bytes)
    (strct : MessageStruct) (cb : Handler)
    (hjson : ∀ ms b, marshal ms = Except.ok b →
      b.head? = some 123 ∧ b.getLast? = some 125 ∧
      ∃ raw, unmarshal b = ({ Group := ms.Group, Name := ms.Name, Body := raw }, none) ∧
        decodes raw ms.Body)
    (hm : marshal ms = Except.ok b) (hfit : b.length ≤ size)
    (hg : ms.Group.length > 0) (hn : ms.Name.length > 0)
    (hl : sw.m.cmd.lookup ms.Group = some strct)
    (hh : mapaccess sw.heap strct ms.Name = some cb) :
    (WriteMessage marshal cw ms wr).2 = none ∧
    written cw.m.pipe (WriteMessage marshal cw ms wr).1.events =
      written cw.m.pipe cw.events ++ [b] ∧
    (afterRead (List.replicate size 0) b).length = size ∧
    Trim (afterRead (List.replicate size 0) b) [0] = b ∧
    ∃ raw, decodes raw ms.Body ∧
      loopBody unmarshal sw (List.replicate size 0) { data := b, err := none } =
        Result.returned
          ({ sw with events := sw.events ++ [Event.go cb sw.m.log raw] },
            List.replicate size 0) := by
  obtain ⟨hhead, hlast, raw, hdec, hraw⟩ := hjson ms b hm
  have hne : b ≠ [] := by
    intro h
    rw [h] at hhead
    simp at hhead
  have htrim : Trim b [0] = b :=
    Trim_eq_self b (by rw [hhead]; simp) (by rw [hlast]; simp)
  refine ⟨?_, ?_, ?_, ?_, raw, hraw, ?_⟩
  · simp [WriteMessage, hm]
  · simp [WriteMessage, WriteBytes, hm, written, List.filterMap_append]
  · simp only [afterRead, List.drop_replicate, List.length_append, List.length_replicate]
    omega
  · simp only [afterRead, List.drop_replicate, Trim_append_zeros, htrim]
  · rw [loopBody_zero_buffer unmarshal sw { data := b, err := none } hne rfl]
    simp only [htrim, hdec, logDecodeError]
    rw [dispatch_of_resolved sw { Group := ms.Group, Name := ms.Name, Body := raw } strct cb
      hg hn hl hh]

/-- The encoder and the decoder of the examples round-trip the one envelope the
encoder knows. -/
theorem encoder_decoder_round_trip (ms : MessageSend) (b : Bytes)
    (h : encoder ms = Except.ok b) :
    b.head? = some 123 ∧ b.getLast? = some 125 ∧
      ∃ raw, decoder b = ({ Group := ms.Group, Name := ms.Name, Body := raw }, none) ∧
        decodesTo raw ms.Body := by
  unfold encoder at h
  split_ifs at h with heq
  · cases h
    subst heq
    exact ⟨by decide, by decide, userBytes, by decide, rfl, rfl⟩

/-- C13, witness: the message auth.login with the body object user = a, sent by
the client side of a pair to the server side, which serves auth. -/
theorem WriteMessage_round_trip_witness :
    (encoder loginMessage = Except.ok loginBytes ∧ loginBytes.length ≤ size ∧
      loginMessage.Group.length > 0 ∧ loginMessage.Name.length > 0 ∧
      server.m.cmd.lookup loginMessage.Group = some (some 0) ∧
      mapaccess server.heap (some 0) loginMessage.Name = some handlerA) ∧
    (WriteMessage encoder client loginMessage (loginBytes.length, none)).2 = none ∧
    written client.m.pipe
        (WriteMessage encoder client loginMessage (loginBytes.length, none)).1.events =
      written client.m.pipe client.events ++ [loginBytes] ∧
    (afterRead (List.replicate size 0) loginBytes).length = size ∧
    Trim (afterRead (List.replicate size 0) loginBytes) [0] = loginBytes ∧
    ∃ raw, decodesTo raw loginMessage.Body ∧
      loopBody decoder server (List.replicate size 0) { data := loginBytes, err := none } =
        Result.returned
          ({ server with events := server.events ++ [Event.go handlerA server.m.log raw] },
            List.replicate size 0) :=
  ⟨⟨rfl, by decide, by decide, by decide, rfl, rfl⟩,
    WriteMessage_round_trip encoder decoder decodesTo client server loginMessage
      (loginBytes.length, none) loginBytes (some 0) handlerA encoder_decoder_round_trip rfl
      (by decide) (by decide) (by decide) rfl rfl⟩

end conn
